import Mathlib

/-!
Shallow embedding of the PDF claim-download tracking service
(source files `db_handler.py`, `main.py`, `matching_functions.py`).

The two BGATE tables are modelled as in-memory lists:
`CLAIM_STATUS` becomes `DB.claims` and `PDF_DOWNLOAD_DMS_CLAIMS` becomes
`DB.files`.  Each SQL `MERGE` / `UPDATE` statement becomes a pure function
on `DB`.  Timestamps are integers.  The `LAST_MODIFIED_DATE` audit columns,
which the code writes (`CURRENT_TIMESTAMP`) but never reads back, are
omitted from the record types.  Money amounts are rationals.
-/

/-- Row of the BGATE `CLAIM_STATUS` table. -/
structure ClaimStatus where
  claim_id : Nat
  claim_no : String
  vin : String
  dealer_code : String
  dealer_name : String
  report_date : Int
  gross_credit : ℚ
  labour_amount_dms : ℚ
  part_amount_dms : ℚ
  last_dms_update_date : Option Int
  auditing_date : Option Int
  total_files_count : Option Nat
  downloaded_files_count : Option Nat
  attachment_status : String
  audit_status : Option String
deriving DecidableEq, Repr

/-- Row of the BGATE `PDF_DOWNLOAD_DMS_CLAIMS` tracking table. -/
structure FileRecord where
  file_id : Nat
  claim_id : Nat
  claim_no : String
  remote_file_name : String
  local_file_path : Option String
  status : String
  error_message : Option String
  download_timestamp : Int
  claim_last_modified : Option Int
  is_latest_version : Bool
deriving DecidableEq, Repr

/-- The BGATE database state: the two tables written by the service. -/
structure DB where
  claims : List ClaimStatus
  files : List FileRecord
deriving DecidableEq, Repr

/-- One row of the upstream DMS claims query in `get_claims_needing_download`
(`SEC_TT_AS_WR_APPLICATION_V` joined with `TM_DEALER`).  `UPDATE_DATE` is
non-null because the query filters `claims.UPDATE_DATE < SYSDATE`. -/
structure DmsRow where
  claim_id : Nat
  claim_no : String
  vin : String
  gross_credit : ℚ
  report_date : Int
  labour_amount : ℚ
  part_amount : ℚ
  auditing_date : Option Int
  update_date : Int
  dealer_code : String
  dealer_name : String
deriving DecidableEq, Repr

/-- One row of the upstream file-metadata source (`TC_FILE_UPLOAD_INFO`
joined to the claims view) as enumerated by `get_new_files_to_download`. -/
structure UpFile where
  claim_id : Nat
  file_id : Nat
  file_name : String
  create_date : Int
  file_type_detail : String
deriving DecidableEq, Repr

/-- Argument bundle of one `log_download_status` call, together with the
value `CURRENT_TIMESTAMP` takes during that call. -/
structure LogCall where
  file_id : Nat
  claim_id : Nat
  claim_no : String
  remote_name : String
  local_path : String
  status : String
  error_msg : Option String
  now : Int
deriving DecidableEq, Repr

/-- `SELECT ... FROM CLAIM_STATUS WHERE CLAIM_ID = :claim_id` (first row). -/
def find_claim (db : DB) (claim_id : Nat) : Option ClaimStatus :=
  db.claims.find? (fun cs => cs.claim_id == claim_id)

/-- `SELECT ... FROM PDF_DOWNLOAD_DMS_CLAIMS WHERE FILE_ID = ...` exists? -/
def file_exists (db : DB) (file_id : Nat) : Bool :=
  db.files.any (fun f => f.file_id == file_id)

/-- Number of rows counted by the statistics query of
`update_attachment_status`: latest-version file records of the claim with
`STATUS = 'SUCCESS'`. -/
def success_count (db : DB) (claim_id : Nat) : Nat :=
  db.files.countP
    (fun f => f.claim_id == claim_id && f.status == "SUCCESS" && f.is_latest_version)

/-- Status decision of `update_attachment_status` (db_handler.py lines
640-646): `PENDING` when the success count is zero, `COMPLETE` when it
equals `TOTAL_FILES_COUNT`, else `PARTIAL`. -/
def recomputed_status (succ : Nat) (total : Option Nat) : String :=
  if succ == 0 then "PENDING"
  else if some succ == total then "COMPLETE"
  else "PARTIAL"

/-- `update_attachment_status` (db_handler.py lines 607-681): recompute the
claim's `ATTACHMENT_STATUS` and `DOWNLOADED_FILES_COUNT` from a fresh
aggregate over the tracking table.  When the claim row is missing the
function logs a warning and returns without writing. -/
def update_attachment_status (claim_id : Nat) (db : DB) : DB :=
  match find_claim db claim_id with
  | none => db
  | some cs =>
    let succ := success_count db claim_id
    let st := recomputed_status succ cs.total_files_count
    { db with
        claims := db.claims.map (fun c =>
          if c.claim_id == claim_id then
            { c with attachment_status := st, downloaded_files_count := some succ }
          else c) }

/-- `get_claim_last_modified_date` (db_handler.py lines 801-834). -/
def get_claim_last_modified_date (db : DB) (claim_id : Nat) : Option Int :=
  match find_claim db claim_id with
  | none => none
  | some cs => cs.last_dms_update_date

/-- Error-message preparation in `log_download_status`: `None` (and the
falsy empty string) stay `NULL`; otherwise truncate to 2000 characters. -/
def truncate_error : Option String → Option String
  | none => none
  | some s => if s = "" then none else some (s.take 2000)

/-- The `MERGE INTO PDF_DOWNLOAD_DMS_CLAIMS` statement of
`log_download_status` (db_handler.py lines 697-734), keyed by `FILE_ID`.
The Python converts a local path of `"N/A"` to `NULL` before binding; on a
matched row `LOCAL_FILE_PATH` is overwritten only when the incoming status
is `'SUCCESS'`, and `IS_LATEST_VERSION` is always reset to `'Y'`. -/
def merge_download_row (call : LogCall) (db : DB) : DB :=
  let clm := get_claim_last_modified_date db call.claim_id
  let lp : Option String := if call.local_path = "N/A" then none else some call.local_path
  let err := truncate_error call.error_msg
  if file_exists db call.file_id then
    { db with
        files := db.files.map (fun f =>
          if f.file_id == call.file_id then
            { f with
                status := call.status
                download_timestamp := call.now
                error_message := err
                claim_last_modified := clm
                is_latest_version := true
                local_file_path :=
                  if call.status = "SUCCESS" then lp else f.local_file_path }
          else f) }
  else
    { db with
        files := db.files ++
          [{ file_id := call.file_id
             claim_id := call.claim_id
             claim_no := call.claim_no
             remote_file_name := call.remote_name
             local_file_path := lp
             status := call.status
             error_message := err
             download_timestamp := call.now
             claim_last_modified := clm
             is_latest_version := true }] }

/-- `log_download_status` (db_handler.py lines 684-798): the `MERGE` keyed by
`FILE_ID` followed synchronously by `update_attachment_status` for the
owning claim. -/
def log_download_status (call : LogCall) (db : DB) : DB :=
  update_attachment_status call.claim_id (merge_download_row call db)

/-- Fields written by the `WHEN MATCHED` branch of the `upsert_claim_status`
`MERGE` (db_handler.py lines 205-281): the upstream-mirrored columns only. -/
def update_mirrored (cs : ClaimStatus) (r : DmsRow) : ClaimStatus :=
  { cs with
      claim_no := r.claim_no
      vin := r.vin
      dealer_code := r.dealer_code
      dealer_name := r.dealer_name
      report_date := r.report_date
      gross_credit := r.gross_credit
      labour_amount_dms := r.labour_amount
      part_amount_dms := r.part_amount
      last_dms_update_date := some r.update_date
      auditing_date := r.auditing_date }

/-- Row inserted by the `WHEN NOT MATCHED` branch of `upsert_claim_status`:
mirrored columns plus `ATTACHMENT_STATUS = 'PENDING'`; the count columns and
`AUDIT_STATUS` are not in the insert list and default to `NULL`. -/
def new_claim (r : DmsRow) : ClaimStatus :=
  { claim_id := r.claim_id
    claim_no := r.claim_no
    vin := r.vin
    dealer_code := r.dealer_code
    dealer_name := r.dealer_name
    report_date := r.report_date
    gross_credit := r.gross_credit
    labour_amount_dms := r.labour_amount
    part_amount_dms := r.part_amount
    last_dms_update_date := some r.update_date
    auditing_date := r.auditing_date
    total_files_count := none
    downloaded_files_count := none
    attachment_status := "PENDING"
    audit_status := none }

/-- `upsert_claim_status` (db_handler.py lines 205-281): SQL `MERGE` into
`CLAIM_STATUS` keyed by `CLAIM_ID`. -/
def upsert_claim_status (r : DmsRow) (db : DB) : DB :=
  if db.claims.any (fun cs => cs.claim_id == r.claim_id) then
    { db with
        claims := db.claims.map (fun cs =>
          if cs.claim_id == r.claim_id then update_mirrored cs r else cs) }
  else
    { db with claims := db.claims ++ [new_claim r] }

/-- Selection predicate of `get_claims_needing_download` (db_handler.py lines
358-373): after the left merge on `CLAIM_ID`, a DMS row is kept when the
stored `LAST_DMS_UPDATE_DATE` is missing (no local row, or a null stored
timestamp), or the upstream `UPDATE_DATE` is strictly newer, or the local
`ATTACHMENT_STATUS` differs from `'COMPLETE'`. -/
def needs_download_row (db : DB) (r : DmsRow) : Bool :=
  match find_claim db r.claim_id with
  | none => true
  | some cs =>
    match cs.last_dms_update_date with
    | none => true
    | some t => decide (t < r.update_date) || cs.attachment_status != "COMPLETE"

/-- `get_claims_needing_download` (db_handler.py lines 283-407): returns the
subset of the upstream snapshot needing a download pass, and — as a side
effect — upserts every upstream row into `CLAIM_STATUS`.  When the local
table is empty the merge is skipped and all claims count as new. -/
def get_claims_needing_download (dms : List DmsRow) (db : DB) :
    List DmsRow × DB :=
  let needs := if db.claims.isEmpty then dms else dms.filter (needs_download_row db)
  (needs, dms.foldl (fun d r => upsert_claim_status r d) db)

/-- `mark_old_files_obsolete` (db_handler.py lines 532-572): flip
`IS_LATEST_VERSION` from `'Y'` to `'N'` for every file record of the claim. -/
def mark_old_files_obsolete (claim_id : Nat) (db : DB) : DB :=
  { db with
      files := db.files.map (fun f =>
        if f.claim_id == claim_id && f.is_latest_version then
          { f with is_latest_version := false }
        else f) }

/-- `update_claim_file_count` (db_handler.py lines 575-604): replace the
claim's `TOTAL_FILES_COUNT` with the supplied number. -/
def update_claim_file_count (claim_id : Nat) (total_files : Nat) (db : DB) : DB :=
  { db with
      claims := db.claims.map (fun cs =>
        if cs.claim_id == claim_id then
          { cs with total_files_count := some total_files }
        else cs) }

/-- Ascending lexicographic order on upstream file rows, modelling
`ORDER BY claims.CLAIM_ID, files.CREATE_DATE ASC`. -/
def upFileLe (a b : UpFile) : Prop :=
  a.claim_id < b.claim_id ∨ (a.claim_id = b.claim_id ∧ a.create_date ≤ b.create_date)

instance : DecidableRel upFileLe := fun a b =>
  inferInstanceAs (Decidable (_ ∨ _))

instance : IsTotal UpFile upFileLe := by
  constructor
  intro a b
  rcases Nat.lt_trichotomy a.claim_id b.claim_id with h | h | h
  · exact Or.inl (Or.inl h)
  · rcases Int.le_total a.create_date b.create_date with h2 | h2
    · exact Or.inl (Or.inr ⟨h, h2⟩)
    · exact Or.inr (Or.inr ⟨h.symm, h2⟩)
  · exact Or.inr (Or.inl h)

instance : IsTrans UpFile upFileLe := by
  constructor
  intro a b c hab hbc
  rcases hab with h1 | ⟨h1, h1d⟩ <;> rcases hbc with h2 | ⟨h2, h2d⟩
  · exact Or.inl (Nat.lt_trans h1 h2)
  · exact Or.inl (h2 ▸ h1)
  · exact Or.inl (h1 ▸ h2)
  · exact Or.inr ⟨h1.trans h2, le_trans h1d h2d⟩

/-- One batched `IN`-query of `get_new_files_to_download`: the upstream file
rows whose claim id is in the batch, filtered to `.pdf` documents, returned
in ascending `(CLAIM_ID, CREATE_DATE)` order. -/
def upstream_files_query (up : List UpFile) (ids : List Nat) : List UpFile :=
  List.insertionSort upFileLe
    (up.filter (fun f => ids.contains f.claim_id && f.file_type_detail == ".pdf"))

/-- Structural worker for `chunkList`; the fuel is an upper bound on the
number of chunks (the list length suffices for any positive chunk size). -/
def chunkListAux : Nat → Nat → List α → List (List α)
  | _, _, [] => []
  | 0, _, _ => []
  | fuel + 1, n, x :: xs => (x :: xs).take n :: chunkListAux fuel n ((x :: xs).drop n)

/-- The Python batching loop `for i in range(0, len(claim_ids), batch_size)`:
split a list into consecutive chunks of at most `n` elements (`n > 0`). -/
def chunkList (n : Nat) (l : List α) : List (List α) :=
  chunkListAux l.length n l

/-- Per-claim sizes of the enumerated file set, as computed by
`files_df.groupby("CLAIM_ID").size()` (one entry per claim id that actually
appears; group order is immaterial to the resulting state). -/
def file_counts (files : List UpFile) : List (Nat × Nat) :=
  ((files.map (fun f => f.claim_id)).dedup).map
    (fun c => (c, files.countP (fun f => f.claim_id == c)))

/-- Body of `get_new_files_to_download` after the claim ids are known
(db_handler.py lines 438-520): first mark every claim's old file records
obsolete, then enumerate the upstream files in chunks of at most 999 ids,
then store the freshly observed per-claim counts.  An empty enumeration
returns early, before any count is stored. -/
def file_set_resolve (up : List UpFile) (ids : List Nat) (db : DB) :
    List UpFile × DB :=
  let db1 := ids.foldl (fun d c => mark_old_files_obsolete c d) db
  let files := ((chunkList 999 ids).map (upstream_files_query up)).flatten
  if files.isEmpty then ([], db1)
  else
    (files, (file_counts files).foldl
      (fun d p => update_claim_file_count p.1 p.2 d) db1)

/-- `get_new_files_to_download` (db_handler.py lines 409-529): reconcile the
claim snapshot, then resolve the file set for the claims needing download. -/
def get_new_files_to_download (up : List UpFile) (dms : List DmsRow) (db : DB) :
    List UpFile × DB :=
  let res := get_claims_needing_download dms db
  if res.1.isEmpty then ([], res.2)
  else file_set_resolve up (res.1.map (fun r => r.claim_id)) res.2

/-- `ORDER BY LAST_DMS_UPDATE_DATE ASC` over a nullable column, with
Oracle's default `NULLS LAST` placement for ascending order. -/
def dateLe : Option Int → Option Int → Prop
  | _, none => True
  | none, some _ => False
  | some x, some y => x ≤ y

instance : DecidableRel dateLe
  | none, none => .isTrue trivial
  | some _, none => .isTrue trivial
  | none, some _ => .isFalse (fun h => h)
  | some x, some y => inferInstanceAs (Decidable (x ≤ y))

/-- Claim ordering used by the two selection queries. -/
def claimLe (a b : ClaimStatus) : Prop :=
  dateLe a.last_dms_update_date b.last_dms_update_date

instance : DecidableRel claimLe := fun a b =>
  inferInstanceAs (Decidable (dateLe _ _))

instance : IsTotal ClaimStatus claimLe := by
  constructor
  intro a b
  unfold claimLe
  cases a.last_dms_update_date <;> cases b.last_dms_update_date <;>
    simp [dateLe] <;> omega

instance : IsTrans ClaimStatus claimLe := by
  constructor
  intro a b c
  unfold claimLe
  cases a.last_dms_update_date <;> cases b.last_dms_update_date <;>
    cases c.last_dms_update_date <;> simp [dateLe] <;> omega

/-- `get_claims_ready_for_processing` (db_handler.py lines 837-875):
`ATTACHMENT_STATUS = 'COMPLETE'` and `AUDIT_STATUS` null or `'PENDING'`,
ordered by `LAST_DMS_UPDATE_DATE` ascending. -/
def get_claims_ready_for_processing (db : DB) : List ClaimStatus :=
  List.insertionSort claimLe
    (db.claims.filter (fun cs =>
      cs.attachment_status == "COMPLETE" &&
        (cs.audit_status.isNone || cs.audit_status == some "PENDING")))

/-- `get_claims_ready_for_audit` (db_handler.py lines 954-991):
`AUDIT_STATUS = 'PENDING'`, ordered by `LAST_DMS_UPDATE_DATE` ascending. -/
def get_claims_ready_for_audit (db : DB) : List ClaimStatus :=
  List.insertionSort claimLe
    (db.claims.filter (fun cs => cs.audit_status == some "PENDING"))

/-- File ordering of `get_claim_pdf_files`: `ORDER BY DOWNLOAD_TIMESTAMP`. -/
def fileTimeLe (a b : FileRecord) : Prop :=
  a.download_timestamp ≤ b.download_timestamp

instance : DecidableRel fileTimeLe := fun a b =>
  inferInstanceAs (Decidable (a.download_timestamp ≤ b.download_timestamp))

instance : IsTotal FileRecord fileTimeLe :=
  ⟨fun a b => Int.le_total a.download_timestamp b.download_timestamp⟩

instance : IsTrans FileRecord fileTimeLe :=
  ⟨fun _ _ _ h1 h2 => le_trans h1 h2⟩

/-- `get_claim_pdf_files` (db_handler.py lines 878-910): local paths of the
claim's successfully downloaded, latest-version file records. -/
def get_claim_pdf_files (db : DB) (claim_id : Nat) : List String :=
  (List.insertionSort fileTimeLe
      (db.files.filter (fun f =>
        f.claim_id == claim_id && f.status == "SUCCESS" &&
          f.is_latest_version && f.local_file_path.isSome))).filterMap
    (fun f => f.local_file_path)

/-- `update_audit_status` (db_handler.py lines 913-951). -/
def update_audit_status (claim_id : Nat) (audit_status : String) (db : DB) : DB :=
  { db with
      claims := db.claims.map (fun cs =>
        if cs.claim_id == claim_id then
          { cs with audit_status := some audit_status }
        else cs) }

/-- `process_claims_batch_pdfs` (main.py lines 455-568): take the first
`max_claims` claims ready for processing; for each, look up its PDF files
and — when some exist and the external PDF processing succeeds (modelled by
the oracle `ok`) — mark the claim `AUDIT_STATUS = 'PENDING'`.  Claims with
no files, or whose processing raises, are skipped without a status write. -/
def process_claims_batch_pdfs (ok : Nat → Bool) (max_claims : Nat) (db : DB) : DB :=
  ((get_claims_ready_for_processing db).take max_claims).foldl
    (fun d cs =>
      if (get_claim_pdf_files d cs.claim_id).isEmpty then d
      else if ok cs.claim_id then update_audit_status cs.claim_id "PENDING" d
      else d)
    db

/-- `run_batch_audit_matching` (main.py lines 571-676): take the first
`max_claims` claims with `AUDIT_STATUS = 'PENDING'`; every selected claim is
then written `COMPLETE` when it has processing results (some PDF files) and
the matcher succeeds (oracle `matched`, standing for the mocked extraction
plus comparison), else `REJECTED`. -/
def run_batch_audit_matching (matched : Nat → Bool) (max_claims : Nat) (db : DB) : DB :=
  ((get_claims_ready_for_audit db).take max_claims).foldl
    (fun d cs =>
      update_audit_status cs.claim_id
        (if !(get_claim_pdf_files db cs.claim_id).isEmpty && matched cs.claim_id
         then "COMPLETE" else "REJECTED")
        d)
    db

/-- One step of the core cycle as driven by the orchestrator in `main.py`:
claim reconciliation, file-set resolution, one download-outcome write, the
PDF-processing phase, or the audit-matching phase. -/
inductive CoreStep where
  | reconcile (dms : List DmsRow)
  | resolve (up : List UpFile) (dms : List DmsRow)
  | record (call : LogCall)
  | process (ok : Nat → Bool) (max_claims : Nat)
  | audit (matched : Nat → Bool) (max_claims : Nat)

/-- State transition of one core step. -/
def applyStep : CoreStep → DB → DB
  | .reconcile dms, db => (get_claims_needing_download dms db).2
  | .resolve up dms, db => (get_new_files_to_download up dms db).2
  | .record call, db => log_download_status call db
  | .process ok m, db => process_claims_batch_pdfs ok m db
  | .audit f m, db => run_batch_audit_matching f m db

/-- `_amounts_match` (matching_functions.py lines 200-216). -/
def amounts_match (amount1 amount2 : ℚ) (tolerance : ℚ) : Bool :=
  if amount1 = 0 ∧ amount2 = 0 then true
  else decide (|amount1 - amount2| ≤ tolerance)

/-- Comparison pipeline of `match_invoices_with_dms_estimates`
(matching_functions.py lines 17-116), with the mocked random extractor
replaced by the extracted labour/parts amounts taken as arguments (the spec
treats extraction as an external capability).  `tolerance_pct` is the
configured `tolerance_percentage`; the source computes the absolute
tolerance as `total * (pct / 100)` when the total is positive, else `0`,
and checks each component within half the tolerance. -/
def match_invoices_with_dms_estimates (labour_amount_dms part_amount_dms : Option ℚ)
    (extracted_labour extracted_part : ℚ) (tolerance_pct : ℚ) : Bool :=
  let total := labour_amount_dms.getD 0 + part_amount_dms.getD 0
  let tol := if 0 < total then total * (tolerance_pct / 100) else 0
  amounts_match (labour_amount_dms.getD 0) extracted_labour (tol / 2) &&
    amounts_match (part_amount_dms.getD 0) extracted_part (tol / 2)

/-- Key well-formedness of the database: `CLAIM_ID` is the key of
`CLAIM_STATUS` and `FILE_ID` the key of the tracking table. -/
def WfDB (db : DB) : Prop :=
  (db.claims.map (fun cs => cs.claim_id)).Nodup ∧
    (db.files.map (fun f => f.file_id)).Nodup

instance : DecidablePred WfDB := fun db =>
  inferInstanceAs (Decidable (_ ∧ _))

/-- A `log_download_status` call is consistent with the database when the
file id it writes does not already belong to a different claim (file ids
are globally unique per claim in the upstream source; the `MERGE` never
rewrites a matched row's `CLAIM_ID`). -/
def ConsistentCall (db : DB) (call : LogCall) : Prop :=
  ∀ f ∈ db.files, f.file_id = call.file_id → f.claim_id = call.claim_id

instance (db : DB) (call : LogCall) : Decidable (ConsistentCall db call) :=
  inferInstanceAs
    (Decidable (∀ f ∈ db.files, f.file_id = call.file_id → f.claim_id = call.claim_id))

/-- Every call of the sequence is consistent with the state it runs in. -/
def ConsistentTrace : DB → List LogCall → Prop
  | _, [] => True
  | db, call :: rest =>
    ConsistentCall db call ∧ ConsistentTrace (log_download_status call db) rest

instance instDecConsistentTrace :
    (db : DB) → (l : List LogCall) → Decidable (ConsistentTrace db l)
  | _, [] => .isTrue trivial
  | db, call :: rest =>
    have : Decidable (ConsistentTrace (log_download_status call db) rest) :=
      instDecConsistentTrace _ rest
    inferInstanceAs (Decidable (_ ∧ _))

/-- The claim-level completeness invariant of the Download Tracker: each
claim's `ATTACHMENT_STATUS` and `DOWNLOADED_FILES_COUNT` agree with the
number of its latest-version `SUCCESS` file records. -/
def attachInv (db : DB) : Prop :=
  ∀ cs ∈ db.claims,
    (cs.attachment_status = "COMPLETE" ↔
      cs.total_files_count = some (success_count db cs.claim_id) ∧
        0 < success_count db cs.claim_id) ∧
    (cs.attachment_status = "PENDING" ↔ success_count db cs.claim_id = 0) ∧
    (cs.attachment_status ≠ "COMPLETE" → cs.attachment_status ≠ "PENDING" →
      cs.attachment_status = "PARTIAL") ∧
    cs.downloaded_files_count = some (success_count db cs.claim_id)

instance (db : DB) : Decidable (attachInv db) :=
  inferInstanceAs (Decidable (∀ cs ∈ db.claims, _ ∧ _ ∧ _ ∧ _))

/-- Fixture for the C1 witness: one claim expecting two files, no file
records yet. -/
def c1Claim : ClaimStatus :=
  { claim_id := 1
    claim_no := "CN-1"
    vin := "VIN1"
    dealer_code := "D1"
    dealer_name := "Dealer One"
    report_date := 100
    gross_credit := 0
    labour_amount_dms := 0
    part_amount_dms := 0
    last_dms_update_date := some 50
    auditing_date := none
    total_files_count := some 2
    downloaded_files_count := some 0
    attachment_status := "PENDING"
    audit_status := none }

/-- Fixture for the C1 witness: two successful download outcomes. -/
def c1Calls : List LogCall :=
  [{ file_id := 10, claim_id := 1, claim_no := "CN-1", remote_name := "a.pdf",
     local_path := "/data/a.pdf", status := "SUCCESS", error_msg := none, now := 7 },
   { file_id := 11, claim_id := 1, claim_no := "CN-1", remote_name := "b.pdf",
     local_path := "/data/b.pdf", status := "FAILED",
     error_msg := some "HTTP error 500", now := 8 }]

/-- Fixture for the C4 and C5 witnesses: a previously successful download
record for file 10 of claim 1. -/
def c4File : FileRecord :=
  { file_id := 10
    claim_id := 1
    claim_no := "CN-1"
    remote_file_name := "a.pdf"
    local_file_path := some "/data/a.pdf"
    status := "SUCCESS"
    error_message := none
    download_timestamp := 7
    claim_last_modified := some 50
    is_latest_version := true }

/-- Fixture for the C4 witness: a `FAILED` retry call for file 10. -/
def c4Call : LogCall :=
  { file_id := 10
    claim_id := 1
    claim_no := "CN-1"
    remote_name := "a.pdf"
    local_path := "N/A"
    status := "FAILED"
    error_msg := some "HTTP error 404"
    now := 9 }

/-- The local row mirrors the upstream row on all reconciler-owned fields. -/
def Mirrors (cs : ClaimStatus) (r : DmsRow) : Prop :=
  cs.claim_id = r.claim_id ∧
  cs.claim_no = r.claim_no ∧
  cs.vin = r.vin ∧
  cs.dealer_code = r.dealer_code ∧
  cs.dealer_name = r.dealer_name ∧
  cs.report_date = r.report_date ∧
  cs.gross_credit = r.gross_credit ∧
  cs.labour_amount_dms = r.labour_amount ∧
  cs.part_amount_dms = r.part_amount ∧
  cs.last_dms_update_date = some r.update_date ∧
  cs.auditing_date = r.auditing_date

/-- Fixture for the C2 witness: upstream row for the already-known claim 1,
updated upstream after the stored timestamp. -/
def c2Row1 : DmsRow :=
  { claim_id := 1
    claim_no := "CN-1"
    vin := "VIN1"
    gross_credit := 0
    report_date := 100
    labour_amount := 0
    part_amount := 0
    auditing_date := none
    update_date := 60
    dealer_code := "D1"
    dealer_name := "Dealer One" }

/-- Fixture for the C2 witness: upstream row for a brand-new claim 2. -/
def c2Row2 : DmsRow :=
  { claim_id := 2
    claim_no := "CN-2"
    vin := "VIN2"
    gross_credit := 0
    report_date := 101
    labour_amount := 0
    part_amount := 0
    auditing_date := some 5
    update_date := 61
    dealer_code := "D2"
    dealer_name := "Dealer Two" }

/-- Is some latest-version record stored for this file id? -/
def isLatestFile (db : DB) (fid : Nat) : Bool :=
  db.files.any (fun f => f.file_id == fid && f.is_latest_version)

/-- Fixture for C7: locally known claim 1 with a stale file count of 5. -/
def c7Claim1 : ClaimStatus :=
  { claim_id := 1
    claim_no := "CN-1"
    vin := "VIN1"
    dealer_code := "D1"
    dealer_name := "Dealer One"
    report_date := 100
    gross_credit := 0
    labour_amount_dms := 0
    part_amount_dms := 0
    last_dms_update_date := some 50
    auditing_date := none
    total_files_count := some 5
    downloaded_files_count := some 0
    attachment_status := "PENDING"
    audit_status := none }

/-- Fixture for C7: locally known claim 2 with no file count yet. -/
def c7Claim2 : ClaimStatus :=
  { claim_id := 2
    claim_no := "CN-2"
    vin := "VIN2"
    dealer_code := "D2"
    dealer_name := "Dealer Two"
    report_date := 101
    gross_credit := 0
    labour_amount_dms := 0
    part_amount_dms := 0
    last_dms_update_date := some 51
    auditing_date := none
    total_files_count := none
    downloaded_files_count := none
    attachment_status := "PENDING"
    audit_status := none }

/-- Fixture for C7: the upstream has one PDF for claim 2 and none for 1. -/
def c7Up : List UpFile :=
  [{ claim_id := 2, file_id := 20, file_name := "b.pdf",
     create_date := 1, file_type_detail := ".pdf" }]

/-- Key well-formedness of the claims table alone. -/
def WfClaims (db : DB) : Prop :=
  (db.claims.map (fun cs => cs.claim_id)).Nodup

instance : DecidablePred WfClaims := fun db => by
  unfold WfClaims
  infer_instance

/-- The claim's audit status is terminal. -/
def TerminalAudit (cs : ClaimStatus) : Prop :=
  cs.audit_status = some "COMPLETE" ∨ cs.audit_status = some "REJECTED"

/-- Fixture for the C9 witness: a claim already audited `COMPLETE`. -/
def c9Claim : ClaimStatus :=
  { claim_id := 1
    claim_no := "CN-1"
    vin := "VIN1"
    dealer_code := "D1"
    dealer_name := "Dealer One"
    report_date := 100
    gross_credit := 0
    labour_amount_dms := 0
    part_amount_dms := 0
    last_dms_update_date := some 50
    auditing_date := none
    total_files_count := some 1
    downloaded_files_count := some 1
    attachment_status := "COMPLETE"
    audit_status := some "COMPLETE" }

/-! ### Generic list helpers -/

/-- A key-preserving map does not change the list of keys. -/
theorem map_key_eq {α : Type} (l : List α) (g : α → α) (key : α → Nat)
    (h : ∀ x ∈ l, key (g x) = key x) :
    (l.map g).map key = l.map key := by
  rw [List.map_map]
  exact List.map_congr_left h

/-- A pointwise predicate-preserving map does not change `countP`. -/
theorem countP_map_eq {α : Type} (l : List α) (g : α → α) (p : α → Bool)
    (h : ∀ x ∈ l, p (g x) = p x) :
    (l.map g).countP p = l.countP p := by
  induction l with
  | nil => rfl
  | cons a t ih =>
    simp only [List.map_cons, List.countP_cons, h a (by simp),
      ih (fun x hx => h x (by simp [hx]))]

/-- With duplicate-free keys, `find?` by an element's key returns exactly
that element. -/
theorem find?_key_of_nodup {α : Type} (key : α → Nat) (l : List α)
    (h : (l.map key).Nodup) (a : α) (ha : a ∈ l) :
    l.find? (fun x => key x == key a) = some a := by
  induction l with
  | nil => cases ha
  | cons b t ih =>
    simp only [List.map_cons, List.nodup_cons] at h
    rcases List.mem_cons.mp ha with rfl | hat
    · simp [List.find?_cons]
    · have hne : key b ≠ key a := by
        intro he
        exact h.1 (he ▸ List.mem_map_of_mem key hat)
      have hb : (key b == key a) = false := by simpa using hne
      simp [List.find?_cons, hb, ih h.2 hat]

/-- `find?` by key through a key-preserving map. -/
theorem find?_key_map {α : Type} (l : List α) (g : α → α) (key : α → Nat)
    (hg : ∀ x, key (g x) = key x) (c : Nat) :
    (l.map g).find? (fun x => key x == c) =
      (l.find? (fun x => key x == c)).map g := by
  have hfun : ((fun x => key x == c) ∘ g) = fun x => key x == c := by
    funext x
    simp [Function.comp, hg]
  rw [List.find?_map, hfun]

/-! ### Basic facts about the table operations -/

/-- `update_attachment_status` writes only `CLAIM_STATUS`. -/
theorem files_update_attachment_status (claim_id : Nat) (db : DB) :
    (update_attachment_status claim_id db).files = db.files := by
  unfold update_attachment_status
  cases find_claim db claim_id <;> rfl

/-- `update_claim_file_count` writes only `CLAIM_STATUS`. -/
theorem files_update_claim_file_count (c n : Nat) (db : DB) :
    (update_claim_file_count c n db).files = db.files := rfl

/-- `update_audit_status` writes only `CLAIM_STATUS`. -/
theorem files_update_audit_status (c : Nat) (s : String) (db : DB) :
    (update_audit_status c s db).files = db.files := rfl

/-- `upsert_claim_status` writes only `CLAIM_STATUS`. -/
theorem files_upsert_claim_status (r : DmsRow) (db : DB) :
    (upsert_claim_status r db).files = db.files := by
  unfold upsert_claim_status
  split <;> rfl

/-- `mark_old_files_obsolete` writes only the tracking table. -/
theorem claims_mark_old_files_obsolete (c : Nat) (db : DB) :
    (mark_old_files_obsolete c db).claims = db.claims := rfl

/-- The tracking-table `MERGE` writes only the tracking table. -/
theorem claims_merge_download_row (call : LogCall) (db : DB) :
    (merge_download_row call db).claims = db.claims := by
  cases h : file_exists db call.file_id <;> simp [merge_download_row, h]

/-- The claim-id list is untouched by `update_attachment_status`. -/
theorem claim_keys_update_attachment_status (claim_id : Nat) (db : DB) :
    ((update_attachment_status claim_id db).claims.map (fun cs => cs.claim_id)) =
      db.claims.map (fun cs => cs.claim_id) := by
  unfold update_attachment_status
  cases find_claim db claim_id with
  | none => rfl
  | some cs =>
    exact map_key_eq _ _ _ (fun x _ => by split <;> rfl)

/-! ### Download-tracker invariant (claims C1, C4, C5, C10) -/

/-- `success_count` ignores the claims table. -/
theorem success_count_claims_irrel (db : DB) (claims : List ClaimStatus) (c : Nat) :
    success_count { db with claims := claims } c = success_count db c := rfl

/-- The tracking-table `MERGE` does not change the success count of any
other claim (under call consistency). -/
theorem success_count_merge_ne (call : LogCall) (db : DB) (c : Nat)
    (hc : c ≠ call.claim_id) (hcons : ConsistentCall db call) :
    success_count (merge_download_row call db) c = success_count db c := by
  cases hex : file_exists db call.file_id
  · have hnew : (call.claim_id == c) = false := by
      simpa using (Ne.symm hc)
    simp only [success_count, merge_download_row, hex, Bool.false_eq_true,
      if_false, List.countP_append, List.countP_cons, List.countP_nil, hnew,
      Bool.false_and, if_false]
    omega
  · simp only [success_count, merge_download_row, hex, if_true]
    apply countP_map_eq
    intro f hf
    by_cases hfe : (f.file_id == call.file_id) = true
    · have hfc : f.claim_id = call.claim_id := hcons f hf (by simpa using hfe)
      have hb : (f.claim_id == c) = false := by
        simp [hfc]
        exact Ne.symm hc
      simp [hfe, hb]
    · simp [hfe]

/-- `log_download_status` preserves key well-formedness. -/
theorem wfdb_log (call : LogCall) (db : DB) (hW : WfDB db) :
    WfDB (log_download_status call db) := by
  obtain ⟨hc, hf⟩ := hW
  constructor
  · rw [log_download_status, claim_keys_update_attachment_status,
      claims_merge_download_row]
    exact hc
  · rw [log_download_status, files_update_attachment_status]
    cases hex : file_exists db call.file_id
    · have hnotin : call.file_id ∉ db.files.map (fun f => f.file_id) := by
        intro hmem
        obtain ⟨f, hfm, hfe⟩ := List.mem_map.mp hmem
        have : db.files.any (fun f => f.file_id == call.file_id) = true :=
          List.any_eq_true.mpr ⟨f, hfm, by simpa using hfe⟩
        rw [file_exists] at hex
        simp [this] at hex
      simp only [merge_download_row, hex, Bool.false_eq_true, if_false,
        List.map_append, List.map_cons, List.map_nil]
      simp [List.nodup_append, hf, hnotin]
    · simp only [merge_download_row, hex, if_true]
      rw [map_key_eq _ _ _ (fun x _ => by split <;> rfl)]
      exact hf

/-- The recomputed status satisfies exactly the completeness conditions. -/
theorem recompute_status_spec (sc : Nat) (total : Option Nat) :
    (recomputed_status sc total = "COMPLETE" ↔ total = some sc ∧ 0 < sc) ∧
    (recomputed_status sc total = "PENDING" ↔ sc = 0) ∧
    (recomputed_status sc total ≠ "COMPLETE" → recomputed_status sc total ≠ "PENDING" →
      recomputed_status sc total = "PARTIAL") := by
  unfold recomputed_status
  by_cases h0 : sc = 0
  · subst h0
    simp
  · have hb0 : (sc == 0) = false := by simpa using h0
    by_cases h1 : some sc = total
    · simp [hb0, ← h1, h0, Nat.pos_of_ne_zero h0]
    · have hb1 : (some sc == total) = false := by simpa using h1
      have h1s : ¬ total = some sc := fun h => h1 h.symm
      simp [hb0, hb1, h0, h1s]

/-- If every claim other than `cid` already satisfies the completeness
conditions, recomputing `cid` establishes the invariant for the whole
table: the recomputation derives status and count from a fresh aggregate. -/
theorem attachInv_update_attachment (db : DB) (cid : Nat)
    (hW : (db.claims.map (fun cs => cs.claim_id)).Nodup)
    (hother : ∀ cs ∈ db.claims, cs.claim_id ≠ cid →
      ((cs.attachment_status = "COMPLETE" ↔
        cs.total_files_count = some (success_count db cs.claim_id) ∧
          0 < success_count db cs.claim_id) ∧
       (cs.attachment_status = "PENDING" ↔ success_count db cs.claim_id = 0) ∧
       (cs.attachment_status ≠ "COMPLETE" → cs.attachment_status ≠ "PENDING" →
         cs.attachment_status = "PARTIAL") ∧
       cs.downloaded_files_count = some (success_count db cs.claim_id))) :
    attachInv (update_attachment_status cid db) := by
  unfold update_attachment_status
  split
  case h_1 hfc =>
    intro cs hcs
    have hne : cs.claim_id ≠ cid := by
      intro he
      have hx := List.find?_eq_none.mp hfc cs hcs
      simp [he] at hx
    exact hother cs hcs hne
  case h_2 cs0 hfc =>
    intro cs2 hcs2
    obtain ⟨cs, hcs, rfl⟩ := List.mem_map.mp hcs2
    by_cases hid : cs.claim_id = cid
    · have hfind : db.claims.find? (fun x => x.claim_id == cs.claim_id) = some cs :=
        find?_key_of_nodup (fun c => c.claim_id) db.claims hW cs hcs
      have hcs0 : cs0 = cs := by
        have h2 : db.claims.find? (fun x => x.claim_id == cid) = some cs0 := hfc
        rw [← hid, hfind] at h2
        exact (Option.some.inj h2).symm
      rw [hcs0]
      have hbeq : (cs.claim_id == cid) = true := by simp [hid]
      simp only [hbeq, if_true]
      have hscr : ∀ (X : List ClaimStatus) (c : Nat),
          success_count { claims := X, files := db.files } c = success_count db c :=
        fun _ _ => rfl
      simp only [hscr, hid]
      refine ⟨(recompute_status_spec _ _).1, (recompute_status_spec _ _).2.1,
             (recompute_status_spec _ _).2.2, ?_⟩
      trivial
    · have hbeq : (cs.claim_id == cid) = false := by simpa using hid
      simp only [hbeq, Bool.false_eq_true, if_false]
      exact hother cs hcs hid

/-- One consistent `log_download_status` call preserves the completeness
invariant: the owning claim is recomputed from a fresh aggregate and every
other claim's success count is untouched. -/
theorem attachInv_log (call : LogCall) (db : DB) (hW : WfDB db)
    (hcons : ConsistentCall db call) (hinv : attachInv db) :
    attachInv (log_download_status call db) := by
  rw [log_download_status]
  apply attachInv_update_attachment
  · have h := claims_merge_download_row call db
    rw [h]
    exact hW.1
  · intro cs hcs hne
    rw [claims_merge_download_row] at hcs
    have hsc := success_count_merge_ne call db cs.claim_id hne hcons
    rw [hsc]
    exact hinv cs hcs

/-- C1.  For every claim, after any sequence of `record_outcome`
(`log_download_status`) calls — each consistent with the file ownership in
the state it runs in — the completeness invariant holds: a claim's
`attachment_status` is `COMPLETE` iff the number of its latest-version
`SUCCESS` file records equals `total_files_count` and that count is
positive, `PENDING` iff the success count is zero, otherwise `PARTIAL`;
and `downloaded_files_count` equals the success count.  The recomputation
is synchronous: `log_download_status` itself ends in
`update_attachment_status`, so the invariant holds after every single
write of the sequence. -/
theorem C1_completeness_invariant (db : DB) (calls : List LogCall)
    (hW : WfDB db) (htr : ConsistentTrace db calls) (hinv : attachInv db) :
    attachInv (calls.foldl (fun d call => log_download_status call d) db) := by
  induction calls generalizing db with
  | nil => simpa using hinv
  | cons call rest ih =>
    obtain ⟨h1, h2⟩ := htr
    exact ih _ (wfdb_log call db hW) h2 (attachInv_log call db hW h1 hinv)

/-- Witness for C1 at a concrete state and call sequence. -/
theorem C1_completeness_invariant_witness :
    WfDB { claims := [c1Claim], files := [] } ∧
    ConsistentTrace { claims := [c1Claim], files := [] } c1Calls ∧
    attachInv { claims := [c1Claim], files := [] } ∧
    attachInv (c1Calls.foldl (fun d call => log_download_status call d)
      { claims := [c1Claim], files := [] }) :=
  ⟨by decide, by decide, by decide,
   C1_completeness_invariant { claims := [c1Claim], files := [] } c1Calls
     (by decide) (by decide) (by decide)⟩

/-- The matched branch of the tracking `MERGE`: the updated image of an
existing row with the call's file id is in the result. -/
theorem merge_matched_mem (call : LogCall) (db : DB) (f : FileRecord)
    (hf : f ∈ db.files) (hid : f.file_id = call.file_id) :
    ({ f with
        status := call.status
        download_timestamp := call.now
        error_message := truncate_error call.error_msg
        claim_last_modified := get_claim_last_modified_date db call.claim_id
        is_latest_version := true
        local_file_path :=
          if call.status = "SUCCESS" then
            (if call.local_path = "N/A" then none else some call.local_path)
          else f.local_file_path } : FileRecord) ∈
      (merge_download_row call db).files := by
  have hex : file_exists db call.file_id = true :=
    List.any_eq_true.mpr ⟨f, hf, by simp [hid]⟩
  have hbeq : (f.file_id == call.file_id) = true := by simp [hid]
  simp only [merge_download_row, hex, if_true]
  refine List.mem_map.mpr ⟨f, hf, ?_⟩
  simp [hbeq]

/-- Every write through `log_download_status` resets the written file's
`IS_LATEST_VERSION` to true. -/
theorem log_sets_latest (c : LogCall) (d : DB) :
    ∀ f ∈ (log_download_status c d).files, f.file_id = c.file_id →
      f.is_latest_version = true := by
  intro f hf hid
  rw [log_download_status, files_update_attachment_status] at hf
  by_cases hex : file_exists d c.file_id = true
  · simp only [merge_download_row, hex, if_true] at hf
    obtain ⟨x, hx, rfl⟩ := List.mem_map.mp hf
    by_cases hb : (x.file_id == c.file_id) = true
    · simp [hb]
    · exfalso
      simp only [hb, Bool.false_eq_true, if_false] at hid
      exact hb (by simp [hid])
  · have hex' : file_exists d c.file_id = false := by simpa using hex
    simp only [merge_download_row, hex', Bool.false_eq_true, if_false,
      List.mem_append, List.mem_cons, List.not_mem_nil, or_false] at hf
    rcases hf with hf | rfl
    · exfalso
      have hall : ∀ x ∈ d.files, ¬ x.file_id = c.file_id := by
        simpa [file_exists] using hex'
      exact hall f hf hid
    · rfl

/-- A `SUCCESS` write with a real path stores exactly that path on every
row with the written file id. -/
theorem log_success_fields (c : LogCall) (d : DB)
    (hs : c.status = "SUCCESS") (hna : c.local_path ≠ "N/A") :
    ∀ f ∈ (log_download_status c d).files, f.file_id = c.file_id →
      f.local_file_path = some c.local_path ∧ f.status = "SUCCESS" ∧
        f.is_latest_version = true := by
  intro f hf hid
  rw [log_download_status, files_update_attachment_status] at hf
  by_cases hex : file_exists d c.file_id = true
  · simp only [merge_download_row, hex, if_true] at hf
    obtain ⟨x, hx, rfl⟩ := List.mem_map.mp hf
    by_cases hb : (x.file_id == c.file_id) = true
    · simp [hb, hs, hna]
    · exfalso
      simp only [hb, Bool.false_eq_true, if_false] at hid
      exact hb (by simp [hid])
  · have hex' : file_exists d c.file_id = false := by simpa using hex
    simp only [merge_download_row, hex', Bool.false_eq_true, if_false,
      List.mem_append, List.mem_cons, List.not_mem_nil, or_false] at hf
    rcases hf with hf | rfl
    · exfalso
      have hall : ∀ x ∈ d.files, ¬ x.file_id = c.file_id := by
        simpa [file_exists] using hex'
      exact hall f hf hid
    · simp [hs, hna]

/-- C4.  A `record_outcome` call with status `FAILED` for an existing
file record updates its status, error message and timestamp but leaves the
previously stored local path untouched; more generally the `MERGE`
overwrites `LOCAL_FILE_PATH` only when the incoming status is `SUCCESS`. -/
theorem C4_failed_preserves_local_path (db : DB) (call : LogCall)
    (hst : call.status = "FAILED") :
    (∀ f ∈ db.files, f.file_id = call.file_id →
      ∃ f' ∈ (log_download_status call db).files,
        f'.file_id = call.file_id ∧
        f'.local_file_path = f.local_file_path ∧
        f'.status = "FAILED" ∧
        f'.error_message = truncate_error call.error_msg ∧
        f'.download_timestamp = call.now) ∧
    (∀ c : LogCall, c.status ≠ "SUCCESS" → ∀ f ∈ db.files, f.file_id = c.file_id →
      ∃ f' ∈ (log_download_status c db).files,
        f'.file_id = c.file_id ∧ f'.local_file_path = f.local_file_path) := by
  constructor
  · intro f hf hid
    have hmem := merge_matched_mem call db f hf hid
    rw [log_download_status, files_update_attachment_status]
    refine ⟨_, hmem, ?_⟩
    have hns : ¬ call.status = "SUCCESS" := by
      rw [hst]
      decide
    simp [hid, hst, hns]
  · intro c hc f hf hid
    have hmem := merge_matched_mem c db f hf hid
    rw [log_download_status, files_update_attachment_status]
    refine ⟨_, hmem, ?_⟩
    simp [hid, hc]

/-- Witness for C4: a `FAILED` retry for file 10 after a stored success
keeps the stored path while updating status, error and timestamp. -/
theorem C4_failed_preserves_local_path_witness :
    c4Call.status = "FAILED" ∧
    (∀ f ∈ (DB.mk [c1Claim] [c4File]).files, f.file_id = c4Call.file_id →
      ∃ f' ∈ (log_download_status c4Call (DB.mk [c1Claim] [c4File])).files,
        f'.file_id = c4Call.file_id ∧
        f'.local_file_path = f.local_file_path ∧
        f'.status = "FAILED" ∧
        f'.error_message = truncate_error c4Call.error_msg ∧
        f'.download_timestamp = c4Call.now) :=
  ⟨rfl, (C4_failed_preserves_local_path (DB.mk [c1Claim] [c4File]) c4Call rfl).1⟩

/-- With duplicate-free keys, a key that occurs occurs on exactly one row. -/
theorem countP_key_eq_one {α : Type} (key : α → Nat) (k : Nat) (l : List α)
    (h : (l.map key).Nodup) (hex : ∃ a ∈ l, key a = k) :
    l.countP (fun x => key x == k) = 1 := by
  induction l with
  | nil =>
    obtain ⟨a, ha, _⟩ := hex
    cases ha
  | cons b t ih =>
    simp only [List.map_cons, List.nodup_cons] at h
    rw [List.countP_cons]
    by_cases hb : key b = k
    · have ht : t.countP (fun x => key x == k) = 0 := by
        rw [List.countP_eq_zero]
        intro x hx
        simp only [beq_iff_eq]
        intro hxk
        have hmem : key x ∈ List.map key t := List.mem_map_of_mem key hx
        rw [hxk, ← hb] at hmem
        exact h.1 hmem
      simp [hb, ht]
    · have hbf : (key b == k) = false := by simpa using hb
      obtain ⟨a, ha, hak⟩ := hex
      rcases List.mem_cons.mp ha with rfl | hat
      · exact absurd hak hb
      · simp [hbf, ih h.2 ⟨a, hat, hak⟩]

/-- A matched write leaves every per-file-id row count unchanged. -/
theorem countP_file_id_log_matched (c : LogCall) (d : DB) (k : Nat)
    (hex : file_exists d c.file_id = true) :
    (log_download_status c d).files.countP (fun f => f.file_id == k) =
      d.files.countP (fun f => f.file_id == k) := by
  rw [log_download_status, files_update_attachment_status]
  simp only [merge_download_row, hex, if_true]
  apply countP_map_eq
  intro f _
  split <;> rfl

/-- An unmatched write appends exactly one row bearing the call's file id. -/
theorem countP_file_id_log_unmatched (c : LogCall) (d : DB) (k : Nat)
    (hex : file_exists d c.file_id = false) :
    (log_download_status c d).files.countP (fun f => f.file_id == k) =
      d.files.countP (fun f => f.file_id == k) +
        (if c.file_id == k then 1 else 0) := by
  rw [log_download_status, files_update_attachment_status]
  simp only [merge_download_row, hex, Bool.false_eq_true, if_false,
    List.countP_append, List.countP_cons, List.countP_nil]
  simp

/-- After any `log_download_status` call there is exactly one row for the
written file id (given key well-formedness). -/
theorem log_file_id_count_one (c : LogCall) (d : DB) (hW : WfDB d) :
    (log_download_status c d).files.countP (fun f => f.file_id == c.file_id) = 1 := by
  by_cases hex : file_exists d c.file_id = true
  · rw [countP_file_id_log_matched c d _ hex]
    obtain ⟨f, hf, hfk⟩ := List.any_eq_true.mp hex
    exact countP_key_eq_one (fun f => f.file_id) c.file_id d.files hW.2
      ⟨f, hf, by simpa using hfk⟩
  · have hex' : file_exists d c.file_id = false := by simpa using hex
    rw [countP_file_id_log_unmatched c d _ hex']
    have h0 : d.files.countP (fun f => f.file_id == c.file_id) = 0 := by
      rw [List.countP_eq_zero]
      intro f hf
      have hall : ∀ x ∈ d.files, ¬ x.file_id = c.file_id := by
        simpa [file_exists] using hex'
      simpa using hall f hf
    simp [h0]

/-- C5.  Submitting the same `SUCCESS` outcome (same file id, same real
local path) twice yields exactly one row for that file id — the upsert is
an idempotent merge keyed by `FILE_ID` — with the local path preserved,
and every write sets `IS_LATEST_VERSION` back to true. -/
theorem C5_success_idempotent (db : DB) (call1 call2 : LogCall) (hW : WfDB db)
    (hid : call2.file_id = call1.file_id)
    (hs1 : call1.status = "SUCCESS") (hs2 : call2.status = "SUCCESS")
    (hlp : call2.local_path = call1.local_path) (hna : call1.local_path ≠ "N/A") :
    ((log_download_status call2 (log_download_status call1 db)).files.countP
        (fun f => f.file_id == call1.file_id) = 1) ∧
    (∀ f ∈ (log_download_status call2 (log_download_status call1 db)).files,
      f.file_id = call1.file_id →
        f.local_file_path = some call1.local_path ∧ f.status = "SUCCESS" ∧
          f.is_latest_version = true) ∧
    (∀ (d : DB) (c : LogCall), ∀ f ∈ (log_download_status c d).files,
      f.file_id = c.file_id → f.is_latest_version = true) := by
  have h1 : (log_download_status call1 db).files.countP
      (fun f => f.file_id == call1.file_id) = 1 :=
    log_file_id_count_one call1 db hW
  have hex : file_exists (log_download_status call1 db) call2.file_id = true := by
    rw [hid]
    have hpos : 0 < (log_download_status call1 db).files.countP
        (fun f => f.file_id == call1.file_id) := by omega
    obtain ⟨f, hf, hp⟩ := List.countP_pos_iff.mp hpos
    exact List.any_eq_true.mpr ⟨f, hf, hp⟩
  refine ⟨?_, ?_, fun d c => log_sets_latest c d⟩
  · rw [countP_file_id_log_matched call2 _ _ hex]
    exact h1
  · intro f hf hfid
    have hres := log_success_fields call2 (log_download_status call1 db) hs2
      (by rw [hlp]; exact hna) f hf (by rw [hid]; exact hfid)
    rw [hlp] at hres
    exact hres

/-- Witness for C5: recording the same successful outcome twice against a
state with no file records. -/
theorem C5_success_idempotent_witness :
    WfDB (DB.mk [c1Claim] []) ∧
    (("/data/a.pdf" : String) ≠ "N/A") ∧
    (((log_download_status
        { file_id := 10, claim_id := 1, claim_no := "CN-1", remote_name := "a.pdf",
          local_path := "/data/a.pdf", status := "SUCCESS", error_msg := none, now := 8 }
        (log_download_status
          { file_id := 10, claim_id := 1, claim_no := "CN-1", remote_name := "a.pdf",
            local_path := "/data/a.pdf", status := "SUCCESS", error_msg := none, now := 7 }
          (DB.mk [c1Claim] []))).files.countP (fun f => f.file_id == 10)) = 1) :=
  ⟨by decide, by decide,
    (C5_success_idempotent (DB.mk [c1Claim] [])
      { file_id := 10, claim_id := 1, claim_no := "CN-1", remote_name := "a.pdf",
        local_path := "/data/a.pdf", status := "SUCCESS", error_msg := none, now := 7 }
      { file_id := 10, claim_id := 1, claim_no := "CN-1", remote_name := "a.pdf",
        local_path := "/data/a.pdf", status := "SUCCESS", error_msg := none, now := 8 }
      (by decide) rfl rfl rfl rfl (by decide)).1⟩

/-- C10.  A `record_outcome` call carrying the orchestrator's failed-download
sentinel (`local_path = "N/A"`, `status = "FAILED"`) stores `NULL` as the
local path on insert and keeps the previously stored path on update; and no
`log_download_status` call ever stores the literal string `"N/A"` as a
local path. -/
theorem C10_na_sentinel (db : DB) (call : LogCall)
    (hna : call.local_path = "N/A") (hst : call.status = "FAILED") :
    (file_exists db call.file_id = false →
      ∃ f ∈ (log_download_status call db).files,
        f.file_id = call.file_id ∧ f.local_file_path = none) ∧
    (∀ f ∈ db.files, f.file_id = call.file_id →
      ∃ f' ∈ (log_download_status call db).files,
        f'.file_id = call.file_id ∧ f'.local_file_path = f.local_file_path) ∧
    (∀ c : LogCall, (∀ f ∈ db.files, f.local_file_path ≠ some "N/A") →
      ∀ f' ∈ (log_download_status c db).files, f'.local_file_path ≠ some "N/A") := by
  refine ⟨?_, ?_, ?_⟩
  · intro hex
    rw [log_download_status, files_update_attachment_status]
    simp only [merge_download_row, hex, Bool.false_eq_true, if_false]
    exact ⟨_, List.mem_append_right _ (List.mem_singleton_self _), rfl, by simp [hna]⟩
  · intro f hf hid
    have hmem := merge_matched_mem call db f hf hid
    rw [log_download_status, files_update_attachment_status]
    have hns : ¬ call.status = "SUCCESS" := by
      rw [hst]
      decide
    exact ⟨_, hmem, hid, by simp [hns]⟩
  · intro c hno f' hf'
    rw [log_download_status, files_update_attachment_status] at hf'
    by_cases hex : file_exists db c.file_id = true
    · simp only [merge_download_row, hex, if_true] at hf'
      obtain ⟨x, hx, rfl⟩ := List.mem_map.mp hf'
      by_cases hb : (x.file_id == c.file_id) = true
      · simp only [hb, if_true]
        by_cases hcs : c.status = "SUCCESS"
        · simp only [hcs, if_true]
          by_cases hnac : c.local_path = "N/A"
          · simp [hnac]
          · simpa using hnac
        · simpa [hcs] using hno x hx
      · simpa [hb] using hno x hx
    · have hex' : file_exists db c.file_id = false := by simpa using hex
      simp only [merge_download_row, hex', Bool.false_eq_true, if_false,
        List.mem_append, List.mem_cons, List.not_mem_nil, or_false] at hf'
      rcases hf' with hf' | rfl
      · exact hno f' hf'
      · by_cases hnac : c.local_path = "N/A"
        · simp [hnac]
        · simpa using hnac

/-- Witness for C10: the orchestrator's failed-download call for a file
with no prior record inserts a `NULL` local path. -/
theorem C10_na_sentinel_witness :
    (c4Call.local_path = "N/A") ∧ (c4Call.status = "FAILED") ∧
    (file_exists (DB.mk [c1Claim] []) c4Call.file_id = false →
      ∃ f ∈ (log_download_status c4Call (DB.mk [c1Claim] [])).files,
        f.file_id = c4Call.file_id ∧ f.local_file_path = none) :=
  ⟨rfl, rfl, (C10_na_sentinel (DB.mk [c1Claim] []) c4Call rfl rfl).1⟩

/-! ### Claim reconciler (claim C2) -/

/-- The matched-update branch mirrors the upstream row. -/
theorem mirrors_update_mirrored (cs : ClaimStatus) (r : DmsRow)
    (hid : cs.claim_id = r.claim_id) : Mirrors (update_mirrored cs r) r := by
  refine ⟨hid, ?_, ?_, ?_, ?_, ?_, ?_, ?_, ?_, ?_, ?_⟩ <;> rfl

/-- The insert branch mirrors the upstream row. -/
theorem mirrors_new_claim (r : DmsRow) : Mirrors (new_claim r) r := by
  refine ⟨?_, ?_, ?_, ?_, ?_, ?_, ?_, ?_, ?_, ?_, ?_⟩ <;> rfl

/-- Looking up the upserted key returns the merged row. -/
theorem find_claim_upsert_self (r : DmsRow) (db : DB) :
    find_claim (upsert_claim_status r db) r.claim_id =
      some (match find_claim db r.claim_id with
            | some cs => update_mirrored cs r
            | none => new_claim r) := by
  unfold upsert_claim_status
  by_cases hex : db.claims.any (fun cs => cs.claim_id == r.claim_id) = true
  · simp only [hex, if_true]
    cases hfc : find_claim db r.claim_id with
    | none =>
      exfalso
      obtain ⟨cs, hcs, hp⟩ := List.any_eq_true.mp hex
      exact absurd hp (by simpa using List.find?_eq_none.mp hfc cs hcs)
    | some cs =>
      have hkey : ∀ x : ClaimStatus,
          (if x.claim_id == r.claim_id then update_mirrored x r else x).claim_id
            = x.claim_id := by
        intro x
        split <;> rfl
      have hmap := find?_key_map db.claims
        (fun c => if c.claim_id == r.claim_id then update_mirrored c r else c)
        (fun c => c.claim_id) hkey r.claim_id
      rw [find_claim, hmap]
      have hp0 := List.find?_some
        (show db.claims.find? (fun x => x.claim_id == r.claim_id) = some cs from hfc)
      have hp : (cs.claim_id == r.claim_id) = true := by simpa using hp0
      rw [show db.claims.find? (fun x => x.claim_id == r.claim_id) = some cs from hfc]
      have hp' : cs.claim_id = r.claim_id := by simpa using hp
      simp [hp']
  · have hex' : db.claims.any (fun cs => cs.claim_id == r.claim_id) = false := by
      simpa using hex
    simp only [hex', Bool.false_eq_true, if_false]
    have hnone : db.claims.find? (fun cs => cs.claim_id == r.claim_id) = none := by
      rw [List.find?_eq_none]
      intro cs hcs
      simpa using List.any_eq_false.mp hex' cs hcs
    have hfc : find_claim db r.claim_id = none := hnone
    rw [hfc, find_claim, List.find?_append, hnone]
    simp [new_claim]

/-- Upserting one upstream row does not disturb other keys. -/
theorem find_claim_upsert_ne (r : DmsRow) (db : DB) (c : Nat)
    (hc : c ≠ r.claim_id) :
    find_claim (upsert_claim_status r db) c = find_claim db c := by
  unfold upsert_claim_status
  by_cases hex : db.claims.any (fun cs => cs.claim_id == r.claim_id) = true
  · simp only [hex, if_true]
    have hkey : ∀ x : ClaimStatus,
        (if x.claim_id == r.claim_id then update_mirrored x r else x).claim_id
          = x.claim_id := by
      intro x
      split <;> rfl
    have hmap := find?_key_map db.claims
      (fun cs => if cs.claim_id == r.claim_id then update_mirrored cs r else cs)
      (fun cs => cs.claim_id) hkey c
    rw [find_claim, hmap]
    cases hfc : db.claims.find? (fun x => x.claim_id == c) with
    | none => simp [find_claim, hfc]
    | some cs =>
      have hp0 := List.find?_some
        (show db.claims.find? (fun x => x.claim_id == c) = some cs from hfc)
      have hp : (cs.claim_id == c) = true := by simpa using hp0
      have hne : ¬ cs.claim_id = r.claim_id := by
        have hcc : cs.claim_id = c := by simpa using hp
        simp [hcc, hc]
      simp [hne, find_claim, hfc]
  · have hex' : db.claims.any (fun cs => cs.claim_id == r.claim_id) = false := by
      simpa using hex
    simp only [hex', Bool.false_eq_true, if_false]
    rw [find_claim, List.find?_append]
    have hsing : List.find? (fun cs => cs.claim_id == c) [new_claim r] = none := by
      simp [new_claim, Ne.symm hc]
    rw [hsing, Option.or_none]
    rfl

/-- Folding upserts over rows whose keys avoid `c` leaves `c` unchanged. -/
theorem find_claim_foldl_upsert_not_mem (rows : List DmsRow) (db : DB) (c : Nat)
    (h : c ∉ rows.map (fun r => r.claim_id)) :
    find_claim (rows.foldl (fun d r => upsert_claim_status r d) db) c =
      find_claim db c := by
  induction rows generalizing db with
  | nil => rfl
  | cons r0 rest ih =>
    simp only [List.map_cons, List.mem_cons, not_or] at h
    rw [List.foldl_cons, ih _ h.2, find_claim_upsert_ne r0 db c h.1]

/-- After the reconciler's upsert loop, every upstream row is mirrored. -/
theorem upsert_all_mirrors (rows : List DmsRow) (db : DB)
    (hkeys : (rows.map (fun r => r.claim_id)).Nodup) :
    ∀ r ∈ rows, ∃ cs,
      find_claim (rows.foldl (fun d r => upsert_claim_status r d) db) r.claim_id =
        some cs ∧ Mirrors cs r := by
  induction rows generalizing db with
  | nil => intro r hr; cases hr
  | cons r0 rest ih =>
    simp only [List.map_cons, List.nodup_cons] at hkeys
    intro r hr
    rcases List.mem_cons.mp hr with rfl | hrest
    · rw [List.foldl_cons,
        find_claim_foldl_upsert_not_mem rest _ r.claim_id hkeys.1,
        find_claim_upsert_self r db]
      cases hfc : find_claim db r.claim_id with
      | none => exact ⟨new_claim r, rfl, mirrors_new_claim r⟩
      | some cs =>
        refine ⟨update_mirrored cs r, rfl, mirrors_update_mirrored cs r ?_⟩
        have hp0 := List.find?_some
          (show db.claims.find? (fun x => x.claim_id == r.claim_id) = some cs from hfc)
        simpa using hp0
    · rw [List.foldl_cons]
      exact ih _ hkeys.2 r hrest

/-- C2.  A claim of the upstream snapshot is selected for download iff it
has no local snapshot, or the upstream `UPDATE_DATE` is strictly newer than
the stored `LAST_DMS_UPDATE_DATE`, or the local `ATTACHMENT_STATUS` is not
`COMPLETE`; and every upstream claim — selected or not — is upserted into
`CLAIM_STATUS`, mirroring all upstream fields.  (Stored timestamps are
assumed non-null, which the reconciler itself guarantees since it always
stores the upstream `UPDATE_DATE`.) -/
theorem C2_selection_and_upsert (dms : List DmsRow) (db : DB) (hW : WfDB db)
    (hts : ∀ cs ∈ db.claims, cs.last_dms_update_date.isSome = true)
    (hkeys : (dms.map (fun r => r.claim_id)).Nodup) :
    (∀ r ∈ dms,
      (r ∈ (get_claims_needing_download dms db).1 ↔
        find_claim db r.claim_id = none ∨
        (∃ cs t, find_claim db r.claim_id = some cs ∧
          cs.last_dms_update_date = some t ∧ t < r.update_date) ∨
        (∃ cs, find_claim db r.claim_id = some cs ∧
          cs.attachment_status ≠ "COMPLETE"))) ∧
    (∀ r ∈ dms, ∃ cs,
      find_claim (get_claims_needing_download dms db).2 r.claim_id = some cs ∧
        Mirrors cs r) := by
  constructor
  · intro r hr
    show r ∈ (if db.claims.isEmpty then dms else dms.filter (needs_download_row db)) ↔ _
    by_cases hemp : db.claims.isEmpty = true
    · have hnil : db.claims = [] := List.isEmpty_iff.mp hemp
      have hfc : find_claim db r.claim_id = none := by
        simp [find_claim, hnil]
      simp [hemp, hr, hfc]
    · have hemp' : db.claims.isEmpty = false := by simpa using hemp
      rw [hemp']
      simp only [Bool.false_eq_true, if_false, List.mem_filter, hr, true_and]
      cases hfc : find_claim db r.claim_id with
      | none => simp [needs_download_row, hfc]
      | some cs =>
        have hcs : cs ∈ db.claims :=
          List.mem_of_find?_eq_some
            (show db.claims.find? (fun x => x.claim_id == r.claim_id) = some cs from hfc)
        obtain ⟨t, ht⟩ := Option.isSome_iff_exists.mp (hts cs hcs)
        simp only [needs_download_row, hfc, ht]
        simp only [Bool.or_eq_true, decide_eq_true_eq, bne_iff_ne, ne_eq]
        constructor
        · intro h
          rcases h with h | h
          · exact Or.inr (Or.inl ⟨cs, t, rfl, ht, h⟩)
          · exact Or.inr (Or.inr ⟨cs, rfl, h⟩)
        · intro h
          rcases h with h | ⟨cs', t', hcs', ht', hlt⟩ | ⟨cs', hcs', hne⟩
          · exact absurd h (by simp)
          · obtain rfl : cs = cs' := Option.some.inj hcs'
            obtain rfl : t = t' := by
              rw [ht] at ht'
              exact Option.some.inj ht'
            exact Or.inl hlt
          · obtain rfl : cs = cs' := Option.some.inj hcs'
            exact Or.inr hne
  · intro r hr
    show ∃ cs,
      find_claim (dms.foldl (fun d r => upsert_claim_status r d) db) r.claim_id =
        some cs ∧ Mirrors cs r
    exact upsert_all_mirrors dms db hkeys r hr

/-- Witness for C2 at a concrete upstream snapshot and local state. -/
theorem C2_selection_and_upsert_witness :
    WfDB (DB.mk [c1Claim] []) ∧
    (∀ cs ∈ (DB.mk [c1Claim] []).claims, cs.last_dms_update_date.isSome = true) ∧
    (([c2Row1, c2Row2].map (fun r => r.claim_id)).Nodup) ∧
    (∀ r ∈ [c2Row1, c2Row2], ∃ cs,
      find_claim (get_claims_needing_download [c2Row1, c2Row2]
        (DB.mk [c1Claim] [])).2 r.claim_id = some cs ∧ Mirrors cs r) :=
  ⟨by decide, by decide, by decide,
   (C2_selection_and_upsert [c2Row1, c2Row2] (DB.mk [c1Claim] [])
     (by decide) (by decide) (by decide)).2⟩

/-! ### File set resolver (claims C3, C6, C7) -/

/-- Concatenating the chunks recovers the original list. -/
theorem flatten_chunkListAux {α : Type} (n : Nat) (hn : 0 < n) :
    ∀ (fuel : Nat) (l : List α), l.length ≤ fuel →
      (chunkListAux fuel n l).flatten = l := by
  intro fuel
  induction fuel with
  | zero =>
    intro l hl
    have : l = [] := List.length_eq_zero.mp (Nat.le_zero.mp hl)
    subst this
    rfl
  | succ fuel ih =>
    intro l hl
    cases l with
    | nil => rfl
    | cons x xs =>
      simp only [chunkListAux, List.flatten_cons]
      rw [ih ((x :: xs).drop n) ?hlen]
      · exact List.take_append_drop n (x :: xs)
      · simp only [List.length_drop, List.length_cons]
        simp only [List.length_cons] at hl
        omega

/-- Concatenating the chunks recovers the original list. -/
theorem flatten_chunkList {α : Type} (n : Nat) (hn : 0 < n) (l : List α) :
    (chunkList n l).flatten = l :=
  flatten_chunkListAux n hn l.length l le_rfl

/-- Every chunk respects the batch ceiling. -/
theorem length_of_mem_chunkListAux {α : Type} (n : Nat) :
    ∀ (fuel : Nat) (l : List α), ∀ c ∈ chunkListAux fuel n l, c.length ≤ n := by
  intro fuel
  induction fuel with
  | zero =>
    intro l c hc
    cases l with
    | nil => cases hc
    | cons x xs => cases hc
  | succ fuel ih =>
    intro l c hc
    cases l with
    | nil => cases hc
    | cons x xs =>
      simp only [chunkListAux, List.mem_cons] at hc
      rcases hc with rfl | hc
      · simpa using Nat.min_le_left n (x :: xs).length
      · exact ih _ c hc

/-- Membership in one batched query. -/
theorem mem_upstream_files_query (up : List UpFile) (ids : List Nat) (r : UpFile) :
    r ∈ upstream_files_query up ids ↔
      r ∈ up ∧ r.claim_id ∈ ids ∧ r.file_type_detail = ".pdf" := by
  unfold upstream_files_query
  rw [List.mem_insertionSort, List.mem_filter]
  simp [and_assoc]

/-- C6.  For a claim-id list longer than the 999-id batch ceiling, the
chunked `IN`-queries concatenated together enumerate exactly the same row
set as a single hypothetical unbounded query over all ids, every chunk
stays within the ceiling, and rows are ascending in
`(CLAIM_ID, CREATE_DATE)` within each chunk. -/
theorem C6_chunked_enumeration (up : List UpFile) (ids : List Nat)
    (hlen : 999 < ids.length) :
    (∀ r : UpFile,
      r ∈ ((chunkList 999 ids).map (upstream_files_query up)).flatten ↔
        r ∈ upstream_files_query up ids) ∧
    (∀ c ∈ chunkList 999 ids, c.length ≤ 999 ∧
      List.Sorted upFileLe (upstream_files_query up c)) := by
  constructor
  · intro r
    rw [mem_upstream_files_query, List.mem_flatten]
    constructor
    · rintro ⟨s, hs, hrs⟩
      obtain ⟨c, hc, rfl⟩ := List.mem_map.mp hs
      obtain ⟨hup, hcid, hpdf⟩ := (mem_upstream_files_query up c r).mp hrs
      refine ⟨hup, ?_, hpdf⟩
      rw [← flatten_chunkList 999 (by omega) ids]
      exact List.mem_flatten.mpr ⟨c, hc, hcid⟩
    · rintro ⟨hup, hcid, hpdf⟩
      rw [← flatten_chunkList 999 (by omega) ids] at hcid
      obtain ⟨c, hc, hcidc⟩ := List.mem_flatten.mp hcid
      exact ⟨upstream_files_query up c, List.mem_map_of_mem _ hc,
        (mem_upstream_files_query up c r).mpr ⟨hup, hcidc, hpdf⟩⟩
  · intro c hc
    exact ⟨length_of_mem_chunkListAux 999 ids.length ids c hc,
      List.sorted_insertionSort upFileLe _⟩

/-- Witness for C6: a thousand claim ids against a two-row upstream. -/
theorem C6_chunked_enumeration_witness :
    999 < (List.range 1000).length ∧
    (∀ r : UpFile,
      r ∈ ((chunkList 999 (List.range 1000)).map
        (upstream_files_query
          [{ claim_id := 3, file_id := 30, file_name := "x.pdf",
             create_date := 1, file_type_detail := ".pdf" }])).flatten ↔
        r ∈ upstream_files_query
          [{ claim_id := 3, file_id := 30, file_name := "x.pdf",
             create_date := 1, file_type_detail := ".pdf" }] (List.range 1000)) :=
  ⟨by simp,
   (C6_chunked_enumeration
     [{ claim_id := 3, file_id := 30, file_name := "x.pdf",
        create_date := 1, file_type_detail := ".pdf" }]
     (List.range 1000) (by simp)).1⟩

/-- `mark_old_files_obsolete` leaves no latest-version record of the claim. -/
theorem mark_establishes (c : Nat) (db : DB) :
    ∀ f ∈ (mark_old_files_obsolete c db).files, f.claim_id = c →
      f.is_latest_version = false := by
  intro f hf hfc
  obtain ⟨x, hx, rfl⟩ := List.mem_map.mp hf
  by_cases hb : (x.claim_id == c && x.is_latest_version) = true
  · simp [hb]
  · simp only [hb, Bool.false_eq_true, if_false]
    simp only [hb, Bool.false_eq_true, if_false] at hfc
    simp only [Bool.and_eq_true, beq_iff_eq, not_and] at hb
    by_cases hl : x.is_latest_version = true
    · exact absurd hl (by simpa using hb hfc)
    · simpa using hl

/-- `mark_old_files_obsolete` never resurrects a latest-version record. -/
theorem mark_preserves (c c' : Nat) (db : DB)
    (h : ∀ f ∈ db.files, f.claim_id = c → f.is_latest_version = false) :
    ∀ f ∈ (mark_old_files_obsolete c' db).files, f.claim_id = c →
      f.is_latest_version = false := by
  intro f hf hfc
  obtain ⟨x, hx, rfl⟩ := List.mem_map.mp hf
  by_cases hb : (x.claim_id == c' && x.is_latest_version) = true
  · simp [hb]
  · simp only [hb, Bool.false_eq_true, if_false] at hfc ⊢
    exact h x hx hfc

/-- The invalidation property survives the rest of the invalidation loop. -/
theorem foldl_mark_preserves (ids : List Nat) (db : DB) (c : Nat)
    (h : ∀ f ∈ db.files, f.claim_id = c → f.is_latest_version = false) :
    ∀ f ∈ (ids.foldl (fun d i => mark_old_files_obsolete i d) db).files,
      f.claim_id = c → f.is_latest_version = false := by
  induction ids generalizing db with
  | nil => exact h
  | cons i rest ih =>
    rw [List.foldl_cons]
    exact ih _ (mark_preserves c i db h)

/-- After the invalidation loop, every claim id of the batch has no
latest-version file record. -/
theorem obsolete_phase_all_stale (ids : List Nat) (db : DB) (c : Nat)
    (hc : c ∈ ids) :
    ∀ f ∈ (ids.foldl (fun d i => mark_old_files_obsolete i d) db).files,
      f.claim_id = c → f.is_latest_version = false := by
  induction ids generalizing db with
  | nil => cases hc
  | cons i rest ih =>
    rw [List.foldl_cons]
    rcases List.mem_cons.mp hc with rfl | hrest
    · exact foldl_mark_preserves rest _ c (mark_establishes c db)
    · exact ih _ hrest

/-- The count-storing loop never touches the tracking table. -/
theorem files_foldl_updcount (l : List (Nat × Nat)) (db : DB) :
    ((l.foldl (fun d p => update_claim_file_count p.1 p.2 d) db)).files =
      db.files := by
  induction l generalizing db with
  | nil => rfl
  | cons p rest ih =>
    rw [List.foldl_cons, ih]
    rfl

/-- The file table produced by the resolver is the invalidated one. -/
theorem files_file_set_resolve (up : List UpFile) (ids : List Nat) (db : DB) :
    (file_set_resolve up ids db).2.files =
      (ids.foldl (fun d i => mark_old_files_obsolete i d) db).files := by
  simp only [file_set_resolve]
  split
  · rfl
  · exact files_foldl_updcount _ _

/-- C3.  In the resolver cycle every claim id of the batch has all of its
file records marked `is_latest_version = false` by the invalidation loop,
which runs before the chunked enumeration is consulted and before any new
file count is stored — the enumeration and count phases never write the
tracking table, so the resolver's final file table is exactly the
invalidated one; a record becomes latest again only through a subsequent
`record_outcome` (`log_download_status`) write, and such a write does make
its file latest. -/
theorem C3_staleness_invalidation (up : List UpFile) (ids : List Nat) (db : DB) :
    (∀ c ∈ ids,
      ∀ f ∈ (ids.foldl (fun d i => mark_old_files_obsolete i d) db).files,
        f.claim_id = c → f.is_latest_version = false) ∧
    ((file_set_resolve up ids db).2.files =
      (ids.foldl (fun d i => mark_old_files_obsolete i d) db).files) ∧
    (∀ (dms : List DmsRow) (db0 : DB) (c : Nat),
      c ∈ (get_claims_needing_download dms db0).1.map (fun r => r.claim_id) →
      ∀ f ∈ (get_new_files_to_download up dms db0).2.files,
        f.claim_id = c → f.is_latest_version = false) ∧
    (∀ (d : DB) (fid c n : Nat) (r : DmsRow) (s : String),
      isLatestFile d fid = false →
        isLatestFile (mark_old_files_obsolete c d) fid = false ∧
        isLatestFile (update_claim_file_count c n d) fid = false ∧
        isLatestFile (update_attachment_status c d) fid = false ∧
        isLatestFile (upsert_claim_status r d) fid = false ∧
        isLatestFile (update_audit_status c s d) fid = false) ∧
    (∀ (d : DB) (call : LogCall),
      isLatestFile (log_download_status call d) call.file_id = true) := by
  refine ⟨?_, files_file_set_resolve up ids db, ?_, ?_, ?_⟩
  · intro c hc
    exact obsolete_phase_all_stale ids db c hc
  · intro dms db0 c hc f hf hfc
    rw [get_new_files_to_download] at hf
    split at hf
    case isTrue hemp =>
      rw [List.isEmpty_iff] at hemp
      rw [hemp] at hc
      cases hc
    case isFalse =>
      rw [files_file_set_resolve] at hf
      exact obsolete_phase_all_stale _ _ c hc f hf hfc
  · intro d fid c n r s hfalse
    have hnol : ∀ x ∈ d.files, x.file_id = fid → x.is_latest_version = false := by
      simpa [isLatestFile] using hfalse
    have hgen : ∀ (fs : List FileRecord),
        (∀ x ∈ fs, x.file_id = fid → x.is_latest_version = false) →
        fs.any (fun f => f.file_id == fid && f.is_latest_version) = false := by
      intro fs h
      apply List.any_eq_false.mpr
      intro f hf
      simp only [Bool.and_eq_true, beq_iff_eq, not_and]
      intro h1
      simp [h f hf h1]
    refine ⟨?_, ?_, ?_, ?_, ?_⟩
    · rw [isLatestFile]
      apply hgen
      intro f hf hfid
      obtain ⟨x, hx, rfl⟩ := List.mem_map.mp hf
      by_cases hb : (x.claim_id == c && x.is_latest_version) = true
      · simp [hb]
      · simp only [hb, Bool.false_eq_true, if_false] at hfid ⊢
        exact hnol x hx hfid
    · rw [isLatestFile, files_update_claim_file_count]
      exact hgen _ hnol
    · rw [isLatestFile, files_update_attachment_status]
      exact hgen _ hnol
    · rw [isLatestFile, files_upsert_claim_status]
      exact hgen _ hnol
    · rw [isLatestFile, files_update_audit_status]
      exact hgen _ hnol
  · intro d call
    rw [isLatestFile]
    apply List.any_eq_true.mpr
    rw [log_download_status, files_update_attachment_status]
    by_cases hex : file_exists d call.file_id = true
    · obtain ⟨f, hf, hp⟩ := List.any_eq_true.mp hex
      have hb : (f.file_id == call.file_id) = true := hp
      have hfid : f.file_id = call.file_id := by simpa using hb
      have hmem := merge_matched_mem call d f hf hfid
      exact ⟨_, hmem, by simp [hfid]⟩
    · have hex' : file_exists d call.file_id = false := by simpa using hex
      refine ⟨{ file_id := call.file_id
                claim_id := call.claim_id
                claim_no := call.claim_no
                remote_file_name := call.remote_name
                local_file_path :=
                  if call.local_path = "N/A" then none else some call.local_path
                status := call.status
                error_message := truncate_error call.error_msg
                download_timestamp := call.now
                claim_last_modified := get_claim_last_modified_date d call.claim_id
                is_latest_version := true }, ?_, by simp⟩
      simp only [merge_download_row, hex', Bool.false_eq_true, if_false]
      exact List.mem_append_right _ (List.mem_singleton_self _)

/-- Witness for C3: invalidating claims 1 and 2 wipes the latest flag of
claim 1's previously successful record. -/
theorem C3_staleness_invalidation_witness :
    (1 : Nat) ∈ ([1, 2] : List Nat) ∧
    (∀ f ∈ (([1, 2] : List Nat).foldl (fun d i => mark_old_files_obsolete i d)
        (DB.mk [c1Claim] [c4File])).files,
      f.claim_id = 1 → f.is_latest_version = false) :=
  ⟨by decide,
   (C3_staleness_invalidation [] [1, 2] (DB.mk [c1Claim] [c4File])).1 1 (by decide)⟩

/-- Self-lookup by key equality finds the key itself. -/
theorem find?_beq_self {l : List Nat} {c : Nat} (h : c ∈ l) :
    l.find? (fun x => x == c) = some c := by
  induction l with
  | nil => cases h
  | cons a t ih =>
    rcases List.mem_cons.mp h with rfl | hat
    · simp [List.find?_cons]
    · by_cases hac : (a == c) = true
      · have hac' : a = c := by simpa using hac
        subst hac'
        simp [List.find?_cons]
      · have hacf : (a == c) = false := by simpa using hac
        simp [List.find?_cons, hacf, ih hat]

/-- Looking up the updated key after `update_claim_file_count`. -/
theorem find_claim_updcount_self (c n : Nat) (db : DB) :
    find_claim (update_claim_file_count c n db) c =
      (find_claim db c).map (fun cs => { cs with total_files_count := some n }) := by
  unfold update_claim_file_count
  have hkey : ∀ x : ClaimStatus,
      (if x.claim_id == c then { x with total_files_count := some n } else x).claim_id
        = x.claim_id := by
    intro x
    split <;> rfl
  have hmap := find?_key_map db.claims
    (fun cs => if cs.claim_id == c then { cs with total_files_count := some n } else cs)
    (fun cs => cs.claim_id) hkey c
  rw [find_claim, hmap]
  cases hfc : db.claims.find? (fun x => x.claim_id == c) with
  | none => simp [find_claim, hfc]
  | some cs =>
    have hp0 := List.find?_some
      (show db.claims.find? (fun x => x.claim_id == c) = some cs from hfc)
    have hp : cs.claim_id = c := by simpa using hp0
    simp [find_claim, hfc, hp]

/-- `update_claim_file_count` does not disturb other keys. -/
theorem find_claim_updcount_ne (c n c' : Nat) (db : DB) (hne : c' ≠ c) :
    find_claim (update_claim_file_count c n db) c' = find_claim db c' := by
  unfold update_claim_file_count
  have hkey : ∀ x : ClaimStatus,
      (if x.claim_id == c then { x with total_files_count := some n } else x).claim_id
        = x.claim_id := by
    intro x
    split <;> rfl
  have hmap := find?_key_map db.claims
    (fun cs => if cs.claim_id == c then { cs with total_files_count := some n } else cs)
    (fun cs => cs.claim_id) hkey c'
  rw [find_claim, hmap]
  cases hfc : db.claims.find? (fun x => x.claim_id == c') with
  | none => simp [find_claim, hfc]
  | some cs =>
    have hp0 := List.find?_some
      (show db.claims.find? (fun x => x.claim_id == c') = some cs from hfc)
    have hp : cs.claim_id = c' := by simpa using hp0
    have hcne : ¬ cs.claim_id = c := by
      rw [hp]
      exact hne
    simp [find_claim, hfc, hcne]

/-- Effect of the whole count-storing loop on one key. -/
theorem find_claim_foldl_updcount (l : List (Nat × Nat)) (db : DB) (c : Nat)
    (hk : (l.map Prod.fst).Nodup) :
    find_claim (l.foldl (fun d p => update_claim_file_count p.1 p.2 d) db) c =
      match l.find? (fun p => p.1 == c) with
      | some p => (find_claim db c).map
          (fun cs => { cs with total_files_count := some p.2 })
      | none => find_claim db c := by
  induction l generalizing db with
  | nil => rfl
  | cons p rest ih =>
    simp only [List.map_cons, List.nodup_cons] at hk
    rw [List.foldl_cons, ih _ hk.2]
    by_cases hp : (p.1 == c) = true
    · have hpc : p.1 = c := by simpa using hp
      have hrest : rest.find? (fun q => q.1 == c) = none := by
        rw [List.find?_eq_none]
        intro q hq
        simp only [beq_iff_eq]
        intro hqc
        exact hk.1 (by rw [← hpc] at hqc; exact hqc ▸ List.mem_map_of_mem Prod.fst hq)
      rw [hrest, List.find?_cons, hp]
      subst hpc
      exact find_claim_updcount_self p.1 p.2 db
    · have hpf : (p.1 == c) = false := by simpa using hp
      rw [List.find?_cons, hpf]
      have hne : c ≠ p.1 := fun h => hp (by simp [h])
      cases hfr : rest.find? (fun q => q.1 == c) with
      | none => simp [find_claim_updcount_ne p.1 p.2 c db hne]
      | some q => simp [find_claim_updcount_ne p.1 p.2 c db hne]

/-- The claims table is untouched by the invalidation loop. -/
theorem claims_foldl_mark (ids : List Nat) (db : DB) :
    ((ids.foldl (fun d i => mark_old_files_obsolete i d) db)).claims = db.claims := by
  induction ids generalizing db with
  | nil => rfl
  | cons i rest ih =>
    rw [List.foldl_cons, ih]
    rfl

/-- C7 (amended).  After enumeration, for every locally known claim id for
which the enumeration observed at least one file, `total_files_count` is
replaced by (not incremented by) the freshly observed count; a claim id for
which the enumeration observed no file is left untouched (its stale
`total_files_count` survives — this is the amendment forced by the
counterexample). -/
theorem C7_total_count_replaced (up : List UpFile) (ids : List Nat) (db : DB)
    (c : Nat) :
    (0 < ((file_set_resolve up ids db).1.countP (fun f => f.claim_id == c)) →
      find_claim (file_set_resolve up ids db).2 c =
        (find_claim db c).map (fun cs =>
          { cs with total_files_count := some (List.countP
              (fun f => f.claim_id == c) (file_set_resolve up ids db).1) })) ∧
    (((file_set_resolve up ids db).1.countP (fun f => f.claim_id == c)) = 0 →
      find_claim (file_set_resolve up ids db).2 c = find_claim db c) := by
  have hclaims1 : find_claim
      (ids.foldl (fun d i => mark_old_files_obsolete i d) db) c = find_claim db c := by
    rw [find_claim, claims_foldl_mark]
    rfl
  constructor
  · intro hpos
    rw [show file_set_resolve up ids db =
      (let db1 := ids.foldl (fun d i => mark_old_files_obsolete i d) db;
       let files := ((chunkList 999 ids).map (upstream_files_query up)).flatten;
       if files.isEmpty then ([], db1)
       else (files, (file_counts files).foldl
         (fun d p => update_claim_file_count p.1 p.2 d) db1)) from rfl] at hpos ⊢
    by_cases hemp :
        (((chunkList 999 ids).map (upstream_files_query up)).flatten).isEmpty = true
    · simp only [hemp, if_true] at hpos
      simp at hpos
    · simp only [hemp, Bool.false_eq_true, if_false] at hpos ⊢
      set files := ((chunkList 999 ids).map (upstream_files_query up)).flatten with hfiles
      have hknodup : ((file_counts files).map Prod.fst).Nodup := by
        rw [file_counts, List.map_map]
        have hcomp : (Prod.fst ∘ fun c : Nat =>
            (c, files.countP (fun f => f.claim_id == c))) = id := rfl
        rw [hcomp, List.map_id]
        exact (files.map (fun f => f.claim_id)).nodup_dedup
      rw [find_claim_foldl_updcount _ _ _ hknodup, hclaims1]
      have hcmem : c ∈ (files.map (fun f => f.claim_id)).dedup := by
        rw [List.mem_dedup]
        obtain ⟨f, hf, hfp⟩ := List.countP_pos_iff.mp hpos
        have : f.claim_id = c := by simpa using hfp
        exact this ▸ List.mem_map_of_mem _ hf
      have hfind : (file_counts files).find? (fun p => p.1 == c) =
          some (c, files.countP (fun f => f.claim_id == c)) := by
        rw [file_counts, List.find?_map]
        have hcomp : ((fun p : Nat × Nat => p.1 == c) ∘
            fun x : Nat => (x, files.countP (fun f => f.claim_id == x))) =
            fun x : Nat => x == c := rfl
        rw [hcomp, find?_beq_self hcmem]
        rfl
      rw [hfind]
  · intro hzero
    rw [show file_set_resolve up ids db =
      (let db1 := ids.foldl (fun d i => mark_old_files_obsolete i d) db;
       let files := ((chunkList 999 ids).map (upstream_files_query up)).flatten;
       if files.isEmpty then ([], db1)
       else (files, (file_counts files).foldl
         (fun d p => update_claim_file_count p.1 p.2 d) db1)) from rfl] at hzero ⊢
    by_cases hemp :
        (((chunkList 999 ids).map (upstream_files_query up)).flatten).isEmpty = true
    · simp only [hemp, if_true]
      exact hclaims1
    · simp only [hemp, Bool.false_eq_true, if_false] at hzero ⊢
      set files := ((chunkList 999 ids).map (upstream_files_query up)).flatten with hfiles
      have hknodup : ((file_counts files).map Prod.fst).Nodup := by
        rw [file_counts, List.map_map]
        have hcomp : (Prod.fst ∘ fun c : Nat =>
            (c, files.countP (fun f => f.claim_id == c))) = id := rfl
        rw [hcomp, List.map_id]
        exact (files.map (fun f => f.claim_id)).nodup_dedup
      rw [find_claim_foldl_updcount _ _ _ hknodup, hclaims1]
      have hnone : (file_counts files).find? (fun p => p.1 == c) = none := by
        rw [List.find?_eq_none]
        intro p hp
        rw [file_counts] at hp
        obtain ⟨x, hx, rfl⟩ := List.mem_map.mp hp
        simp only [beq_iff_eq]
        intro hxc
        rw [List.mem_dedup] at hx
        obtain ⟨f, hf, hfx⟩ := List.mem_map.mp hx
        have : 0 < files.countP (fun g => g.claim_id == c) := by
          apply List.countP_pos_iff.mpr
          exact ⟨f, hf, by simp [hfx, hxc]⟩
        omega
      rw [hnone]

/-- Counterexample to C7 as stated: claim 1 is in the resolver's input list
and is locally known, the enumeration observes zero files for it, yet its
`total_files_count` stays at the stale value 5 instead of being replaced by
the freshly observed count 0 — `groupby` only yields groups for claims that
have at least one enumerated file. -/
theorem C7_counterexample :
    (1 : Nat) ∈ ([1, 2] : List Nat) ∧
    ((file_set_resolve c7Up [1, 2] (DB.mk [c7Claim1, c7Claim2] [])).1.countP
      (fun f => f.claim_id == 1)) = 0 ∧
    ((find_claim (file_set_resolve c7Up [1, 2]
        (DB.mk [c7Claim1, c7Claim2] [])).2 1).map
      (fun cs => cs.total_files_count)) = some (some 5) ∧
    some (some 5) ≠ some (some (0 : Nat)) := by
  decide

/-- Witness for the amended C7: claim 2, with one freshly observed file,
has its count replaced by 1. -/
theorem C7_total_count_replaced_witness :
    0 < ((file_set_resolve c7Up [1, 2]
        (DB.mk [c7Claim1, c7Claim2] [])).1.countP (fun f => f.claim_id == 2)) ∧
    find_claim (file_set_resolve c7Up [1, 2] (DB.mk [c7Claim1, c7Claim2] [])).2 2 =
      (find_claim (DB.mk [c7Claim1, c7Claim2] []) 2).map (fun cs =>
        { cs with total_files_count := some (List.countP
            (fun f => f.claim_id == 2)
            (file_set_resolve c7Up [1, 2] (DB.mk [c7Claim1, c7Claim2] [])).1) }) :=
  ⟨by decide,
   (C7_total_count_replaced c7Up [1, 2] (DB.mk [c7Claim1, c7Claim2] []) 2).1
     (by decide)⟩

/-- With a nonnegative tolerance, `_amounts_match` is exactly the
within-tolerance comparison (the both-zero shortcut is subsumed). -/
theorem amounts_match_iff (a b t : ℚ) (ht : 0 ≤ t) :
    amounts_match a b t = true ↔ |b - a| ≤ t := by
  unfold amounts_match
  split
  case isTrue h =>
    simp [h.1, h.2, ht]
  case isFalse h =>
    simp [abs_sub_comm a b]

/-- C8.  The matcher computes `total_dms_amount = labour_dms + part_dms`
and the absolute tolerance from the configured percentage
(`total * pct / 100` when the total is positive, else `0`), and reports
`match_success = true` iff the extracted labour amount is within half the
tolerance of the DMS labour amount and the extracted parts amount is within
half the tolerance of the DMS parts amount; in particular DMS labour 1000,
parts 500, tolerance `0 %`, extracted labour 1000 and parts 500 match. -/
theorem C8_matching_rule (l p el ep pct : ℚ) (hpct : 0 ≤ pct) :
    (match_invoices_with_dms_estimates (some l) (some p) el ep pct = true ↔
      |el - l| ≤ (if 0 < l + p then (l + p) * (pct / 100) else 0) / 2 ∧
      |ep - p| ≤ (if 0 < l + p then (l + p) * (pct / 100) else 0) / 2) ∧
    match_invoices_with_dms_estimates (some 1000) (some 500) 1000 500 0 = true := by
  constructor
  · have htol : 0 ≤ (if 0 < l + p then (l + p) * (pct / 100) else 0) := by
      split
      case isTrue h =>
        exact mul_nonneg (le_of_lt h) (div_nonneg hpct (by norm_num))
      case isFalse h => exact le_refl 0
    have ht2 : 0 ≤ (if 0 < l + p then (l + p) * (pct / 100) else 0) / 2 :=
      div_nonneg htol (by norm_num)
    unfold match_invoices_with_dms_estimates
    simp only [Option.getD_some, Bool.and_eq_true]
    rw [amounts_match_iff _ _ _ ht2, amounts_match_iff _ _ _ ht2]
  · norm_num [match_invoices_with_dms_estimates, amounts_match]

/-- Witness for C8 at the spec's scenario values. -/
theorem C8_matching_rule_witness :
    (0 : ℚ) ≤ 0 ∧
    (match_invoices_with_dms_estimates (some 1000) (some 500) 1000 500 0 = true ↔
      |(1000 : ℚ) - 1000| ≤ (if (0 : ℚ) < 1000 + 500
          then ((1000 : ℚ) + 500) * (0 / 100) else 0) / 2 ∧
      |(500 : ℚ) - 500| ≤ (if (0 : ℚ) < 1000 + 500
          then ((1000 : ℚ) + 500) * (0 / 100) else 0) / 2) :=
  ⟨le_refl 0, (C8_matching_rule 1000 500 1000 500 0 (le_refl 0)).1⟩

/-! ### Audit status machine (claim C9) -/

/-- A key- and audit-preserving row update keeps lookup and audit status. -/
theorem audit_find_map_update (db : DB) (g : ClaimStatus → ClaimStatus)
    (hkey : ∀ x, (g x).claim_id = x.claim_id)
    (haud : ∀ x, (g x).audit_status = x.audit_status) (c : Nat) (cs : ClaimStatus)
    (h : find_claim db c = some cs) :
    find_claim { claims := db.claims.map g, files := db.files } c = some (g cs) ∧
      (g cs).audit_status = cs.audit_status := by
  constructor
  · rw [find_claim, find?_key_map db.claims g (fun x => x.claim_id) hkey c]
    rw [show db.claims.find? (fun x => x.claim_id == c) = some cs from h]
    rfl
  · exact haud cs

/-- `update_audit_status` for a different claim id keeps lookup unchanged. -/
theorem find_claim_update_audit_ne (c' : Nat) (s : String) (db : DB) (c : Nat)
    (hne : c ≠ c') :
    find_claim (update_audit_status c' s db) c = find_claim db c := by
  unfold update_audit_status
  have hkey : ∀ x : ClaimStatus,
      (if x.claim_id == c' then { x with audit_status := some s } else x).claim_id
        = x.claim_id := by
    intro x
    split <;> rfl
  have hmap := find?_key_map db.claims
    (fun cs => if cs.claim_id == c' then { cs with audit_status := some s } else cs)
    (fun cs => cs.claim_id) hkey c
  rw [find_claim, hmap]
  cases hfc : db.claims.find? (fun x => x.claim_id == c) with
  | none => simp [find_claim, hfc]
  | some cs =>
    have hp0 := List.find?_some
      (show db.claims.find? (fun x => x.claim_id == c) = some cs from hfc)
    have hp : cs.claim_id = c := by simpa using hp0
    have hcne : ¬ cs.claim_id = c' := by
      rw [hp]
      exact hne
    simp [find_claim, hfc, hcne]

/-- One upsert keeps the looked-up claim's audit status. -/
theorem audit_find_upsert (r : DmsRow) (db : DB) (c : Nat) (cs : ClaimStatus)
    (h : find_claim db c = some cs) :
    ∃ cs', find_claim (upsert_claim_status r db) c = some cs' ∧
      cs'.audit_status = cs.audit_status := by
  by_cases hc : c = r.claim_id
  · subst hc
    rw [find_claim_upsert_self r db, h]
    exact ⟨update_mirrored cs r, rfl, rfl⟩
  · rw [find_claim_upsert_ne r db c hc, h]
    exact ⟨cs, rfl, rfl⟩

/-- The reconciler's upsert loop keeps the looked-up claim's audit status. -/
theorem audit_find_foldl_upsert (rows : List DmsRow) (db : DB) (c : Nat)
    (cs : ClaimStatus) (h : find_claim db c = some cs) :
    ∃ cs', find_claim (rows.foldl (fun d r => upsert_claim_status r d) db) c =
      some cs' ∧ cs'.audit_status = cs.audit_status := by
  induction rows generalizing db cs with
  | nil => exact ⟨cs, h, rfl⟩
  | cons r rest ih =>
    rw [List.foldl_cons]
    obtain ⟨cs1, h1, ha1⟩ := audit_find_upsert r db c cs h
    obtain ⟨cs2, h2, ha2⟩ := ih _ cs1 h1
    exact ⟨cs2, h2, ha2.trans ha1⟩

/-- One `update_claim_file_count` keeps the looked-up claim's audit status. -/
theorem audit_find_updcount (i n : Nat) (db : DB) (c : Nat) (cs : ClaimStatus)
    (h : find_claim db c = some cs) :
    ∃ cs', find_claim (update_claim_file_count i n db) c = some cs' ∧
      cs'.audit_status = cs.audit_status := by
  by_cases hc : c = i
  · rw [hc] at h ⊢
    rw [find_claim_updcount_self i n db, h]
    exact ⟨_, rfl, rfl⟩
  · rw [find_claim_updcount_ne i n c db hc, h]
    exact ⟨cs, rfl, rfl⟩

/-- The count-storing loop keeps the looked-up claim's audit status. -/
theorem audit_find_foldl_updcount (l : List (Nat × Nat)) (db : DB) (c : Nat)
    (cs : ClaimStatus) (h : find_claim db c = some cs) :
    ∃ cs', find_claim (l.foldl (fun d p => update_claim_file_count p.1 p.2 d) db) c =
      some cs' ∧ cs'.audit_status = cs.audit_status := by
  induction l generalizing db cs with
  | nil => exact ⟨cs, h, rfl⟩
  | cons p rest ih =>
    rw [List.foldl_cons]
    obtain ⟨cs1, h1, ha1⟩ := audit_find_updcount p.1 p.2 db c cs h
    obtain ⟨cs2, h2, ha2⟩ := ih _ cs1 h1
    exact ⟨cs2, h2, ha2.trans ha1⟩

/-- `update_attachment_status` keeps the looked-up claim's audit status. -/
theorem audit_find_update_attachment (i : Nat) (db : DB) (c : Nat)
    (cs : ClaimStatus) (h : find_claim db c = some cs) :
    ∃ cs', find_claim (update_attachment_status i db) c = some cs' ∧
      cs'.audit_status = cs.audit_status := by
  unfold update_attachment_status
  split
  case h_1 => exact ⟨cs, h, rfl⟩
  case h_2 cs0 heq =>
    have hres := audit_find_map_update db
      (fun x => if x.claim_id == i then
        { x with
            attachment_status :=
              recomputed_status (success_count db i) cs0.total_files_count
            downloaded_files_count := some (success_count db i) }
        else x)
      (fun x => by dsimp only; split <;> rfl)
      (fun x => by dsimp only; split <;> rfl) c cs h
    exact ⟨_, hres.1, hres.2⟩

/-- `mark_old_files_obsolete` keeps claim lookups entirely unchanged. -/
theorem find_claim_mark (i : Nat) (db : DB) (c : Nat) :
    find_claim (mark_old_files_obsolete i db) c = find_claim db c := rfl

/-- The invalidation loop keeps claim lookups entirely unchanged. -/
theorem find_claim_foldl_mark (ids : List Nat) (db : DB) (c : Nat) :
    find_claim (ids.foldl (fun d i => mark_old_files_obsolete i d) db) c =
      find_claim db c := by
  rw [find_claim, claims_foldl_mark]
  rfl

/-- Claims selected for PDF processing: attachment complete, audit status
null or `PENDING`. -/
theorem ready_processing_spec (db : DB) :
    ∀ cs ∈ get_claims_ready_for_processing db,
      cs ∈ db.claims ∧ cs.attachment_status = "COMPLETE" ∧
        (cs.audit_status = none ∨ cs.audit_status = some "PENDING") := by
  intro cs hcs
  rw [get_claims_ready_for_processing, List.mem_insertionSort, List.mem_filter] at hcs
  obtain ⟨hmem, hp⟩ := hcs
  simp only [Bool.and_eq_true, Bool.or_eq_true, beq_iff_eq,
    Option.isNone_iff_eq_none] at hp
  exact ⟨hmem, hp.1, hp.2⟩

/-- Claims selected for audit matching: audit status `PENDING`. -/
theorem ready_audit_spec (db : DB) :
    ∀ cs ∈ get_claims_ready_for_audit db,
      cs ∈ db.claims ∧ cs.audit_status = some "PENDING" := by
  intro cs hcs
  rw [get_claims_ready_for_audit, List.mem_insertionSort, List.mem_filter] at hcs
  obtain ⟨hmem, hp⟩ := hcs
  simpa using ⟨hmem, by simpa using hp⟩

/-- With duplicate-free keys, a member is what lookup by its key returns. -/
theorem mem_eq_of_find (db : DB) (hW : WfClaims db) (x : ClaimStatus)
    (hx : x ∈ db.claims) (c : Nat) (hxc : x.claim_id = c) (cs : ClaimStatus)
    (h : find_claim db c = some cs) : x = cs := by
  have hfk := find?_key_of_nodup (fun cs => cs.claim_id) db.claims
    (show (db.claims.map (fun cs => cs.claim_id)).Nodup from hW) x hx
  have hfk2 : db.claims.find? (fun y => y.claim_id == x.claim_id) = some x := hfk
  rw [hxc] at hfk2
  have hfk3 : find_claim db c = some x := hfk2
  rw [h] at hfk3
  exact (Option.some.inj hfk3).symm

/-- A key-preserving row map keeps claims-table well-formedness. -/
theorem wfclaims_map (db : DB) (g : ClaimStatus → ClaimStatus)
    (hkey : ∀ x ∈ db.claims, (g x).claim_id = x.claim_id) (hW : WfClaims db) :
    WfClaims { claims := db.claims.map g, files := db.files } := by
  unfold WfClaims at hW ⊢
  rw [map_key_eq db.claims g (fun cs => cs.claim_id) hkey]
  exact hW

/-- `upsert_claim_status` keeps claims-table well-formedness. -/
theorem wfclaims_upsert (r : DmsRow) (db : DB) (hW : WfClaims db) :
    WfClaims (upsert_claim_status r db) := by
  unfold upsert_claim_status
  by_cases hex : db.claims.any (fun cs => cs.claim_id == r.claim_id) = true
  · simp only [hex, if_true]
    exact wfclaims_map db _ (fun x _ => by split <;> rfl) hW
  · have hex' : db.claims.any (fun cs => cs.claim_id == r.claim_id) = false := by
      simpa using hex
    simp only [hex', Bool.false_eq_true, if_false]
    unfold WfClaims
    simp only [List.map_append, List.map_cons, List.map_nil]
    rw [List.nodup_append]
    refine ⟨hW, List.nodup_singleton _, ?_⟩
    intro k hk
    simp only [List.mem_singleton]
    intro hkr
    obtain ⟨x, hx, hxk⟩ := List.mem_map.mp hk
    have := List.any_eq_false.mp hex' x hx
    rw [show (new_claim r).claim_id = r.claim_id from rfl] at hkr
    simp [hxk, hkr] at this

/-- The reconciler's upsert loop keeps claims-table well-formedness. -/
theorem wfclaims_foldl_upsert (rows : List DmsRow) (db : DB) (hW : WfClaims db) :
    WfClaims (rows.foldl (fun d r => upsert_claim_status r d) db) := by
  induction rows generalizing db with
  | nil => exact hW
  | cons r rest ih =>
    rw [List.foldl_cons]
    exact ih _ (wfclaims_upsert r db hW)

/-- `update_audit_status` keeps claims-table well-formedness. -/
theorem wfclaims_update_audit (c : Nat) (s : String) (db : DB) (hW : WfClaims db) :
    WfClaims (update_audit_status c s db) :=
  wfclaims_map db _ (fun x _ => by split <;> rfl) hW

/-- `update_claim_file_count` keeps claims-table well-formedness. -/
theorem wfclaims_updcount (c n : Nat) (db : DB) (hW : WfClaims db) :
    WfClaims (update_claim_file_count c n db) :=
  wfclaims_map db _ (fun x _ => by split <;> rfl) hW

/-- `update_attachment_status` keeps claims-table well-formedness. -/
theorem wfclaims_update_attachment (c : Nat) (db : DB) (hW : WfClaims db) :
    WfClaims (update_attachment_status c db) := by
  unfold WfClaims
  rw [claim_keys_update_attachment_status]
  exact hW

/-- The processing loop leaves a non-selected claim's lookup unchanged. -/
theorem find_claim_process_foldl (sel : List ClaimStatus) (ok : Nat → Bool)
    (db : DB) (c : Nat) (hne : ∀ x ∈ sel, x.claim_id ≠ c) :
    find_claim (sel.foldl (fun d cs =>
      if (get_claim_pdf_files d cs.claim_id).isEmpty then d
      else if ok cs.claim_id then update_audit_status cs.claim_id "PENDING" d
      else d) db) c = find_claim db c := by
  induction sel generalizing db with
  | nil => rfl
  | cons x rest ih =>
    rw [List.foldl_cons]
    have hx : x.claim_id ≠ c := hne x (by simp)
    have hrest : ∀ y ∈ rest, y.claim_id ≠ c := fun y hy => hne y (by simp [hy])
    rw [ih _ hrest]
    split
    · rfl
    · split
      · exact find_claim_update_audit_ne x.claim_id "PENDING" db c (Ne.symm hx)
      · rfl

/-- The audit-matching loop leaves a non-selected claim's lookup unchanged. -/
theorem find_claim_audit_foldl (sel : List ClaimStatus) (matched : Nat → Bool)
    (db0 db : DB) (c : Nat) (hne : ∀ x ∈ sel, x.claim_id ≠ c) :
    find_claim (sel.foldl (fun d cs =>
      update_audit_status cs.claim_id
        (if !(get_claim_pdf_files db0 cs.claim_id).isEmpty && matched cs.claim_id
         then "COMPLETE" else "REJECTED") d) db) c = find_claim db c := by
  induction sel generalizing db with
  | nil => rfl
  | cons x rest ih =>
    rw [List.foldl_cons]
    have hx : x.claim_id ≠ c := hne x (by simp)
    have hrest : ∀ y ∈ rest, y.claim_id ≠ c := fun y hy => hne y (by simp [hy])
    rw [ih _ hrest]
    exact find_claim_update_audit_ne x.claim_id _ db c (Ne.symm hx)

/-- The count-storing loop keeps claims-table well-formedness. -/
theorem wfclaims_foldl_updcount (l : List (Nat × Nat)) (db : DB)
    (hW : WfClaims db) :
    WfClaims (l.foldl (fun d p => update_claim_file_count p.1 p.2 d) db) := by
  induction l generalizing db with
  | nil => exact hW
  | cons p rest ih =>
    rw [List.foldl_cons]
    exact ih _ (wfclaims_updcount p.1 p.2 db hW)

/-- The resolver keeps claims-table well-formedness. -/
theorem wfclaims_file_set_resolve (up : List UpFile) (ids : List Nat) (db : DB)
    (hW : WfClaims db) : WfClaims (file_set_resolve up ids db).2 := by
  have hdb1 : WfClaims (ids.foldl (fun d i => mark_old_files_obsolete i d) db) := by
    unfold WfClaims
    rw [claims_foldl_mark]
    exact hW
  simp only [file_set_resolve]
  split
  · exact hdb1
  · exact wfclaims_foldl_updcount _ _ hdb1

/-- The processing loop keeps claims-table well-formedness. -/
theorem wfclaims_process_foldl (sel : List ClaimStatus) (ok : Nat → Bool)
    (db : DB) (hW : WfClaims db) :
    WfClaims (sel.foldl (fun d cs =>
      if (get_claim_pdf_files d cs.claim_id).isEmpty then d
      else if ok cs.claim_id then update_audit_status cs.claim_id "PENDING" d
      else d) db) := by
  induction sel generalizing db with
  | nil => exact hW
  | cons x rest ih =>
    rw [List.foldl_cons]
    apply ih
    split
    · exact hW
    · split
      · exact wfclaims_update_audit _ _ _ hW
      · exact hW

/-- The audit-matching loop keeps claims-table well-formedness. -/
theorem wfclaims_audit_foldl (sel : List ClaimStatus) (matched : Nat → Bool)
    (db0 db : DB) (hW : WfClaims db) :
    WfClaims (sel.foldl (fun d cs =>
      update_audit_status cs.claim_id
        (if !(get_claim_pdf_files db0 cs.claim_id).isEmpty && matched cs.claim_id
         then "COMPLETE" else "REJECTED") d) db) := by
  induction sel generalizing db with
  | nil => exact hW
  | cons x rest ih =>
    rw [List.foldl_cons]
    exact ih _ (wfclaims_update_audit _ _ _ hW)

/-- Every core step keeps claims-table well-formedness. -/
theorem wfclaims_applyStep (s : CoreStep) (db : DB) (hW : WfClaims db) :
    WfClaims (applyStep s db) := by
  cases s with
  | reconcile dms =>
    exact wfclaims_foldl_upsert dms db hW
  | resolve up dms =>
    show WfClaims (get_new_files_to_download up dms db).2
    have hres : WfClaims (get_claims_needing_download dms db).2 :=
      wfclaims_foldl_upsert dms db hW
    simp only [get_new_files_to_download]
    split
    · exact hres
    · exact wfclaims_file_set_resolve _ _ _ hres
  | record call =>
    show WfClaims (log_download_status call db)
    rw [log_download_status]
    apply wfclaims_update_attachment
    unfold WfClaims
    rw [claims_merge_download_row]
    exact hW
  | process ok m =>
    exact wfclaims_process_foldl _ ok db hW
  | audit f m =>
    exact wfclaims_audit_foldl _ f db db hW

/-- One core step never changes a terminal audit status. -/
theorem terminal_preserved_step (s : CoreStep) (db : DB) (hW : WfClaims db)
    (c : Nat) (cs : ClaimStatus) (h : find_claim db c = some cs)
    (ht : TerminalAudit cs) :
    ∃ cs', find_claim (applyStep s db) c = some cs' ∧
      cs'.audit_status = cs.audit_status := by
  cases s with
  | reconcile dms =>
    exact audit_find_foldl_upsert dms db c cs h
  | resolve up dms =>
    show ∃ cs', find_claim (get_new_files_to_download up dms db).2 c = some cs' ∧
      cs'.audit_status = cs.audit_status
    obtain ⟨cs1, h1, ha1⟩ := audit_find_foldl_upsert dms db c cs h
    have h1' : find_claim (get_claims_needing_download dms db).2 c = some cs1 := h1
    simp only [get_new_files_to_download]
    split
    · exact ⟨cs1, h1', ha1⟩
    · simp only [file_set_resolve]
      have hmark : find_claim
          ((((get_claims_needing_download dms db).1.map (fun r => r.claim_id))).foldl
            (fun d i => mark_old_files_obsolete i d)
            (get_claims_needing_download dms db).2) c = some cs1 := by
        rw [find_claim_foldl_mark]
        exact h1'
      split
      · exact ⟨cs1, hmark, ha1⟩
      · obtain ⟨cs2, h2, ha2⟩ := audit_find_foldl_updcount _ _ c cs1 hmark
        exact ⟨cs2, h2, ha2.trans ha1⟩
  | record call =>
    show ∃ cs', find_claim (log_download_status call db) c = some cs' ∧
      cs'.audit_status = cs.audit_status
    rw [log_download_status]
    apply audit_find_update_attachment
    rw [find_claim, claims_merge_download_row]
    exact h
  | process ok m =>
    show ∃ cs', find_claim (process_claims_batch_pdfs ok m db) c = some cs' ∧
      cs'.audit_status = cs.audit_status
    rw [process_claims_batch_pdfs]
    rw [find_claim_process_foldl _ ok db c ?hne]
    · exact ⟨cs, h, rfl⟩
    case hne =>
      intro x hx hxc
      have hx' := ready_processing_spec db x (List.mem_of_mem_take hx)
      have hxcs : x = cs := mem_eq_of_find db hW x hx'.1 c hxc cs h
      rcases hx'.2.2 with hnone | hpend
      · rw [hxcs] at hnone
        rcases ht with hc | hc <;> rw [hc] at hnone <;> cases hnone
      · rw [hxcs] at hpend
        rcases ht with hc | hc <;> rw [hc] at hpend <;>
          exact absurd (Option.some.inj hpend) (by decide)
  | audit f m =>
    show ∃ cs', find_claim (run_batch_audit_matching f m db) c = some cs' ∧
      cs'.audit_status = cs.audit_status
    rw [run_batch_audit_matching]
    rw [find_claim_audit_foldl _ f db db c ?hne]
    · exact ⟨cs, h, rfl⟩
    case hne =>
      intro x hx hxc
      have hx' := ready_audit_spec db x (List.mem_of_mem_take hx)
      have hxcs : x = cs := mem_eq_of_find db hW x hx'.1 c hxc cs h
      have hpend := hx'.2
      rw [hxcs] at hpend
      rcases ht with hc | hc <;> rw [hc] at hpend <;>
        exact absurd (Option.some.inj hpend) (by decide)

/-- Any sequence of core steps never changes a terminal audit status. -/
theorem terminal_preserved_steps (steps : List CoreStep) (db : DB)
    (hW : WfClaims db) (c : Nat) (cs : ClaimStatus)
    (h : find_claim db c = some cs) (ht : TerminalAudit cs) :
    ∃ cs', find_claim (steps.foldl (fun d s => applyStep s d) db) c = some cs' ∧
      cs'.audit_status = cs.audit_status := by
  induction steps generalizing db cs with
  | nil => exact ⟨cs, h, rfl⟩
  | cons s rest ih =>
    rw [List.foldl_cons]
    obtain ⟨cs1, h1, ha1⟩ := terminal_preserved_step s db hW c cs h ht
    have ht1 : TerminalAudit cs1 := by
      unfold TerminalAudit at ht ⊢
      rw [ha1]
      exact ht
    obtain ⟨cs2, h2, ha2⟩ := ih _ (wfclaims_applyStep s db hW) cs1 h1 ht1
    exact ⟨cs2, h2, ha2.trans ha1⟩

/-- C9.  Claims selected for processing have attachment status `COMPLETE`
and audit status null or `PENDING`; claims selected for audit matching have
audit status `PENDING`; and since `COMPLETE`/`REJECTED` audit statuses are
written only for claims so selected, a claim whose audit status is
`COMPLETE` or `REJECTED` keeps that status under every sequence of core
steps (reconcile, resolve, record-outcome, processing phase, audit phase). -/
theorem C9_terminal_audit_states (db : DB) :
    (∀ cs ∈ get_claims_ready_for_processing db,
      cs.attachment_status = "COMPLETE" ∧
        (cs.audit_status = none ∨ cs.audit_status = some "PENDING")) ∧
    (∀ cs ∈ get_claims_ready_for_audit db, cs.audit_status = some "PENDING") ∧
    (∀ (steps : List CoreStep) (c : Nat) (cs : ClaimStatus),
      WfClaims db → find_claim db c = some cs → TerminalAudit cs →
      ∃ cs', find_claim (steps.foldl (fun d s => applyStep s d) db) c = some cs' ∧
        cs'.audit_status = cs.audit_status) := by
  refine ⟨?_, ?_, ?_⟩
  · intro cs hcs
    exact (ready_processing_spec db cs hcs).2
  · intro cs hcs
    exact (ready_audit_spec db cs hcs).2
  · intro steps c cs hW h ht
    exact terminal_preserved_steps steps db hW c cs h ht

/-- Witness for C9: a processing step followed by an audit step leaves the
terminally audited claim 1 untouched. -/
theorem C9_terminal_audit_states_witness :
    WfClaims (DB.mk [c9Claim] []) ∧
    find_claim (DB.mk [c9Claim] []) 1 = some c9Claim ∧
    TerminalAudit c9Claim ∧
    (∃ cs', find_claim
        (([CoreStep.process (fun _ => true) 5, CoreStep.audit (fun _ => true) 5]).foldl
          (fun d s => applyStep s d) (DB.mk [c9Claim] [])) 1 = some cs' ∧
      cs'.audit_status = c9Claim.audit_status) :=
  ⟨by decide, rfl, Or.inl rfl,
   (C9_terminal_audit_states (DB.mk [c9Claim] [])).2.2
     [CoreStep.process (fun _ => true) 5, CoreStep.audit (fun _ => true) 5]
     1 c9Claim (by decide) rfl (Or.inl rfl)⟩


